import Mathlib

/-!
Shallow embedding of the core of the `opencascade-convert` repository
(GLB container codec, GLB metadata patcher, geometry statistics extractor,
node identity mapper, triangulation retry policy and its retry loop), and
proofs settling the specification claims about it.

Byte buffers (`Uint8Array`) are modelled as `List Nat` whose entries are
below 256 (`BytesWF`); 32-bit little-endian reads/writes are explicit
arithmetic with `% 2 ^ 32` where the source stores into a `u32` slot.
JavaScript numbers are modelled as `ℚ` (exact rationals); the places where
binary64 rounding could diverge from exact rational arithmetic are noted at
the definitions concerned.  Fallible code returns `Except`; JavaScript
exceptions are modelled as error values carrying the thrown `Error`'s
class name and message.  Loops are implemented with explicit fuel chosen
strictly larger than the number of iterations the source loop can perform,
so every definition evaluates by kernel reduction.
-/

instance {ε α : Type} [DecidableEq ε] [DecidableEq α] : DecidableEq (Except ε α) :=
  fun a b =>
    match a, b with
    | .ok x, .ok y =>
      if h : x = y then .isTrue (by rw [h]) else .isFalse (by simp [h])
    | .error x, .error y =>
      if h : x = y then .isTrue (by rw [h]) else .isFalse (by simp [h])
    | .ok _, .error _ => .isFalse (by simp)
    | .error _, .ok _ => .isFalse (by simp)

/-- Well-formed byte buffer: every entry is a byte value.  This is the
invariant `Uint8Array` enforces by construction in the source. -/
def BytesWF (bs : List Nat) : Prop := ∀ b ∈ bs, b < 256

instance : DecidablePred BytesWF := fun bs =>
  inferInstanceAs (Decidable (∀ b ∈ bs, b < 256))

/-- Little-endian 32-bit read at `off`, as `DataView.getUint32(off, true)`.
The source always bounds-checks before reading, so out-of-range entries
(defaulted to 0 here) are never observed. -/
def readU32 (bs : List Nat) (off : Nat) : Nat :=
  bs.getD off 0 + 256 * bs.getD (off + 1) 0 + 65536 * bs.getD (off + 2) 0 +
    16777216 * bs.getD (off + 3) 0

/-- Little-endian 32-bit write, as `DataView.setUint32(_, n, true)`: stores
`n % 2^32` as four bytes. -/
def writeU32 (n : Nat) : List Nat :=
  [n % 256, n / 256 % 256, n / 65536 % 256, n / 16777216 % 256]

/-- Contiguous slice `bs[a..b)`, as `Uint8Array.subarray(a, b)` when
`a ≤ b ≤ bs.length`. -/
def byteSlice (bs : List Nat) (a b : Nat) : List Nat :=
  (bs.drop a).take (b - a)

/-- GLB header length (magic + version + length), from the source. -/
def GLB_HEADER_LENGTH : Nat := 12

/-- GLB chunk header length (length + type), from the source. -/
def GLB_CHUNK_HEADER_LENGTH : Nat := 8

/-- ASCII `glTF` as a little-endian u32, from the source. -/
def GLB_MAGIC : Nat := 0x46546c67

/-- JSON chunk type constant, from the source. -/
def GLB_JSON_CHUNK : Nat := 0x4e4f534a

/-- BIN chunk type constant, from the source. -/
def GLB_BIN_CHUNK : Nat := 0x004e4942

/-- One parsed chunk of `parseGlb` in `glb-metadata.ts`: chunk type, payload
bytes (`data`), and the chunk-header-plus-payload bytes (`raw`). -/
structure ParsedChunk where
  ctype : Nat
  data : List Nat
  raw : List Nat
  deriving DecidableEq, Repr

/-- Result of `parseGlb` in `glb-metadata.ts`. -/
structure ParsedGlb where
  version : Nat
  chunks : List ParsedChunk
  deriving DecidableEq, Repr

/-- Distinct failure causes of `parseGlb` in `glb-metadata.ts` (each is a
`throw new Error(...)` with the message produced by `glbErrorMessage`).
`fuelExhausted` is unreachable: the chunk-walk fuel always exceeds the
possible iteration count; it only makes the loop structurally recursive. -/
inductive GlbError where
  | truncatedHeader
  | invalidMagic
  | truncatedFile (declared actual : Nat)
  | lengthMismatch (declared actual : Nat)
  | truncatedChunk (offset : Nat)
  | missingChunks
  | fuelExhausted
  deriving DecidableEq, Repr

/-- Chunk-walk loop of `parseGlb` in `glb-metadata.ts` (lines 106-124):
while `offset + 8 ≤ glb.byteLength`, read the chunk header, check that the
chunk payload fits, slice `data` and `raw`, and continue at the chunk end. -/
def parseChunksMeta (glb : List Nat) : Nat → Nat → Except GlbError (List ParsedChunk)
  | 0, _ => .error .fuelExhausted
  | fuel + 1, offset =>
    if offset + GLB_CHUNK_HEADER_LENGTH ≤ glb.length then
      let chunkLength := readU32 glb offset
      let chunkStart := offset + GLB_CHUNK_HEADER_LENGTH
      let chunkEnd := chunkStart + chunkLength
      if chunkEnd > glb.length then
        .error (.truncatedChunk offset)
      else
        match parseChunksMeta glb fuel chunkEnd with
        | .error e => .error e
        | .ok rest =>
          .ok (⟨readU32 glb (offset + 4), byteSlice glb chunkStart chunkEnd,
                byteSlice glb offset chunkEnd⟩ :: rest)
    else
      .ok []

/-- The Codec's `parseGlb` in `glb-metadata.ts` (lines 78-131): magic,
header-size and declared-length validation, then the chunk walk, rejecting
an empty chunk list. -/
def parseGlb (glb : List Nat) : Except GlbError ParsedGlb :=
  if glb.length < 4 then .error .truncatedHeader
  else if readU32 glb 0 ≠ GLB_MAGIC then .error .invalidMagic
  else if glb.length < GLB_HEADER_LENGTH + GLB_CHUNK_HEADER_LENGTH then
    .error .truncatedHeader
  else
    let version := readU32 glb 4
    let declaredLength := readU32 glb 8
    if declaredLength ≠ glb.length then
      if declaredLength > glb.length then
        .error (.truncatedFile declaredLength glb.length)
      else
        .error (.lengthMismatch declaredLength glb.length)
    else
      match parseChunksMeta glb (glb.length + 1) GLB_HEADER_LENGTH with
      | .error e => .error e
      | .ok chunks =>
        if chunks = [] then .error .missingChunks
        else .ok ⟨version, chunks⟩

/-- The Codec's `buildGlb` in `glb-metadata.ts` (lines 133-149): the total
length is recomputed as 12 plus the sum of the raw chunk lengths (each raw
chunk is its 8-byte header plus payload), and the header is written with
magic, version and that recomputed length; the output buffer itself has
exactly the recomputed length. -/
def buildGlb (version : Nat) (rawChunks : List (List Nat)) : List Nat :=
  let totalLength := GLB_HEADER_LENGTH + (rawChunks.map List.length).sum
  writeU32 GLB_MAGIC ++ writeU32 version ++ writeU32 totalLength ++ rawChunks.flatten

/-- Total raw length of a parsed chunk list. -/
def rawLen (cs : List ParsedChunk) : Nat := (cs.map (fun c => c.raw.length)).sum

/-- Concatenation of the raw bytes of a parsed chunk list. -/
def joinRaws (cs : List ParsedChunk) : List Nat := (cs.map (fun c => c.raw)).flatten

/-- Parse followed by rebuild: `buildGlb(parsed.version, parsed.chunks.raw)`
on a successful parse, the parse error otherwise. -/
def rebuildGlb (glb : List Nat) : Except GlbError (List Nat) :=
  match parseGlb glb with
  | .error e => .error e
  | .ok p => .ok (buildGlb p.version (p.chunks.map (fun c => c.raw)))

/-- JavaScript `\s` / `trim` whitespace set (WhiteSpace plus LineTerminator
code points). -/
def isJsWhitespace (c : Char) : Bool :=
  let n := c.toNat
  n = 9 ∨ n = 10 ∨ n = 11 ∨ n = 12 ∨ n = 13 ∨ n = 32 ∨ n = 160 ∨ n = 0x1680 ∨
    (0x2000 ≤ n ∧ n ≤ 0x200a) ∨ n = 0x2028 ∨ n = 0x2029 ∨ n = 0x202f ∨
    n = 0x205f ∨ n = 0x3000 ∨ n = 0xfeff

/-- String.prototype.trimEnd. -/
def trimEndJs (s : List Char) : List Char :=
  (s.reverse.dropWhile isJsWhitespace).reverse

/-- String.prototype.trim. -/
def trimJs (s : List Char) : List Char :=
  trimEndJs (s.dropWhile isJsWhitespace)

/-- UTF-8 encoding of one Unicode scalar value, as `TextEncoder.encode`
produces per character.  (JavaScript strings are UTF-16 code unit
sequences; this development models them as scalar-value sequences, which
agrees with the source wherever no lone surrogate is involved.) -/
def utf8EncodeChar (c : Char) : List Nat :=
  let n := c.toNat
  if n < 0x80 then [n]
  else if n < 0x800 then [0xc0 + n / 64, 0x80 + n % 64]
  else if n < 0x10000 then [0xe0 + n / 4096, 0x80 + n / 64 % 64, 0x80 + n % 64]
  else [0xf0 + n / 262144, 0x80 + n / 4096 % 64, 0x80 + n / 64 % 64, 0x80 + n % 64]

/-- TextEncoder.encode over a whole string. -/
def utf8Encode (s : List Char) : List Nat := (s.map utf8EncodeChar).flatten

/-- Unicode replacement character, emitted by a non-fatal `TextDecoder` for
malformed input. -/
def replacementChar : Char := Char.ofNat 0xfffd

/-- WHATWG UTF-8 decoder with replacement (as `new TextDecoder('utf-8')`,
non-fatal): lead-byte ranges restrict the first continuation byte so that
overlong forms, surrogates and values above U+10FFFF are rejected; each
malformed sequence yields one U+FFFD and decoding resumes at the offending
byte.  The fuel strictly exceeds the byte count, so it never runs out. -/
def utf8DecodeGo : Nat → List Nat → List Char
  | 0, _ => []
  | _ + 1, [] => []
  | fuel + 1, b :: rest =>
    if b < 0x80 then Char.ofNat b :: utf8DecodeGo fuel rest
    else if b < 0xc2 then replacementChar :: utf8DecodeGo fuel rest
    else if b < 0xe0 then
      match rest with
      | [] => [replacementChar]
      | b1 :: rest1 =>
        if 0x80 ≤ b1 ∧ b1 ≤ 0xbf then
          Char.ofNat ((b - 0xc0) * 64 + (b1 - 0x80)) :: utf8DecodeGo fuel rest1
        else replacementChar :: utf8DecodeGo fuel rest
    else if b < 0xf0 then
      match rest with
      | [] => [replacementChar]
      | b1 :: rest1 =>
        let lo1 := if b = 0xe0 then 0xa0 else 0x80
        let hi1 := if b = 0xed then 0x9f else 0xbf
        if lo1 ≤ b1 ∧ b1 ≤ hi1 then
          match rest1 with
          | [] => [replacementChar]
          | b2 :: rest2 =>
            if 0x80 ≤ b2 ∧ b2 ≤ 0xbf then
              Char.ofNat ((b - 0xe0) * 4096 + (b1 - 0x80) * 64 + (b2 - 0x80)) ::
                utf8DecodeGo fuel rest2
            else replacementChar :: utf8DecodeGo fuel rest1
        else replacementChar :: utf8DecodeGo fuel rest
    else if b < 0xf5 then
      match rest with
      | [] => [replacementChar]
      | b1 :: rest1 =>
        let lo1 := if b = 0xf0 then 0x90 else 0x80
        let hi1 := if b = 0xf4 then 0x8f else 0xbf
        if lo1 ≤ b1 ∧ b1 ≤ hi1 then
          match rest1 with
          | [] => [replacementChar]
          | b2 :: rest2 =>
            if 0x80 ≤ b2 ∧ b2 ≤ 0xbf then
              match rest2 with
              | [] => [replacementChar]
              | b3 :: rest3 =>
                if 0x80 ≤ b3 ∧ b3 ≤ 0xbf then
                  Char.ofNat ((b - 0xf0) * 262144 + (b1 - 0x80) * 4096 +
                      (b2 - 0x80) * 64 + (b3 - 0x80)) :: utf8DecodeGo fuel rest3
                else replacementChar :: utf8DecodeGo fuel rest2
            else replacementChar :: utf8DecodeGo fuel rest1
        else replacementChar :: utf8DecodeGo fuel rest
    else replacementChar :: utf8DecodeGo fuel rest

/-- Decoding a byte list with `new TextDecoder('utf-8').decode`. -/
def utf8Decode (bs : List Nat) : List Char := utf8DecodeGo (bs.length + 1) bs

mutual

/-- JSON values as produced by `JSON.parse`: `null`, booleans, numbers,
strings, arrays and plain objects (fields in insertion order, keys unique
for parsed values).  Numbers are modelled as exact rationals; `JSON.parse`
itself rounds decimal literals to binary64, which coincides with the exact
value for the integer counts and indices this development evaluates.
Element and field lists are a mutual inductive (rather than nested `List`)
so that recursion over whole values stays structural and kernel-reducible. -/
inductive Json where
  | null
  | bool (b : Bool)
  | num (q : ℚ)
  | str (s : String)
  | arr (elems : JsonList)
  | obj (fields : JsonFields)
  deriving DecidableEq

/-- Element list of a JSON array. -/
inductive JsonList where
  | nil
  | cons (head : Json) (tail : JsonList)
  deriving DecidableEq

/-- Field list of a JSON object (insertion order). -/
inductive JsonFields where
  | nil
  | cons (key : String) (val : Json) (tail : JsonFields)
  deriving DecidableEq

end

/-- View of a `JsonList` as an ordinary list. -/
def JsonList.toList : JsonList → List Json
  | .nil => []
  | .cons h t => h :: t.toList

/-- View of a `JsonFields` as an ordinary association list. -/
def JsonFields.toList : JsonFields → List (String × Json)
  | .nil => []
  | .cons k v t => (k, v) :: t.toList

/-- Building a `JsonList` from an ordinary list. -/
def JsonList.ofList : List Json → JsonList
  | [] => .nil
  | h :: t => .cons h (JsonList.ofList t)

/-- Building a `JsonFields` from an ordinary association list. -/
def JsonFields.ofList : List (String × Json) → JsonFields
  | [] => .nil
  | (k, v) :: t => .cons k v (JsonFields.ofList t)

/-- Property read `j.k` / `j?.k`: defined on plain objects (first matching
key), `undefined` (`none`) otherwise.  None of the property names the
source reads collide with built-in members of primitives or arrays, so
returning `none` off objects is faithful. -/
def Json.getField : Json → String → Option Json
  | .obj fields, k => fields.toList.lookup k
  | _, _ => none

/-- Property write `o[k] = v` on a plain object's field list: update the
first matching key in place, else append (JavaScript property order). -/
def objSet (fields : List (String × Json)) (k : String) (v : Json) :
    List (String × Json) :=
  match fields.lookup k with
  | some _ => fields.map (fun kv => if kv.1 = k then (k, v) else kv)
  | none => fields ++ [(k, v)]

/-- Object spread `{ ...a, ...b }`: fields of `a` in order, overridden in
place by same-key fields of `b`, then `b`'s new keys appended in order. -/
def spreadMerge (a b : List (String × Json)) : List (String × Json) :=
  b.foldl (fun acc kv => objSet acc kv.1 kv.2) a

/-- The `isPlainObject` helper of `glb-metadata.ts` (lines 182-184): value
is a non-null, non-array object.  Within the `Json` model exactly the
`obj` constructor qualifies. -/
def isPlainObject : Json → Bool
  | .obj _ => true
  | _ => false

/-- JSON (RFC 8259) whitespace accepted by `JSON.parse`. -/
def isJsonWs (c : Char) : Bool :=
  c = ' ' ∨ c = '\t' ∨ c = '\n' ∨ c = '\r'

/-- Decimal digit test. -/
def isDigitChar (c : Char) : Bool := '0' ≤ c ∧ c ≤ '9'

/-- Hexadecimal digit value, if any. -/
def hexVal (c : Char) : Option Nat :=
  if '0' ≤ c ∧ c ≤ '9' then some (c.toNat - '0'.toNat)
  else if 'a' ≤ c ∧ c ≤ 'f' then some (c.toNat - 'a'.toNat + 10)
  else if 'A' ≤ c ∧ c ≤ 'F' then some (c.toNat - 'A'.toNat + 10)
  else none

/-- Digits to a natural number (most significant first). -/
def digitsToNat (ds : List Char) : Nat :=
  ds.foldl (fun acc c => acc * 10 + (c.toNat - '0'.toNat)) 0

/-- Leading digit run of a character list. -/
def takeDigits (s : List Char) : List Char × List Char :=
  (s.takeWhile isDigitChar, s.dropWhile isDigitChar)

/-- Exact negation of a rational in a form the kernel evaluates (`Rat.neg`
itself is irreducible). -/
def ratNeg (q : ℚ) : ℚ := mkRat (-q.num) q.den

/-- Exact product of two rationals in a kernel-evaluating form; equals
`a * b` (`jsMul_eq` below). -/
def jsMul (a b : ℚ) : ℚ := mkRat (a.num * b.num) (a.den * b.den)

/-- `Math.min` over exact rationals in a kernel-evaluating form; equals
`min a b` (`jsMin_eq` below). -/
def jsMin (a b : ℚ) : ℚ := if a.num * b.den ≤ b.num * a.den then a else b

/-- Whether a rational is positive, in a kernel-evaluating form. -/
def ratPosB (q : ℚ) : Bool := 0 < q.num

/-- `Math.floor(q / 3)` in a kernel-evaluating form; equals `⌊q / 3⌋`
(`ratFloorDiv3_eq` below). -/
def ratFloorDiv3 (q : ℚ) : Int := Int.fdiv q.num (3 * q.den)

/-- JSON number grammar after `JSON.parse`:
`-? (0 | [1-9][0-9]*) (. [0-9]+)? ([eE][+-]?[0-9]+)?`, evaluated exactly
over `ℚ`.  Returns the value and the rest of the input. -/
def parseJsonNumber (s : List Char) : Option (ℚ × List Char) :=
  let (neg, s1) := match s with
    | '-' :: t => (true, t)
    | _ => (false, s)
  match s1 with
  | [] => none
  | c :: _ =>
    if ¬ isDigitChar c then none
    else
      let (intDs, s2) :=
        if c = '0' then ([c], s1.tail)
        else takeDigits s1
      let (fracDs, s3) :=
        match s2 with
        | '.' :: t =>
          let (ds, r) := takeDigits t
          (ds, r)
        | _ => ([], s2)
      let fracOk : Bool :=
        match s2 with
        | '.' :: _ => ¬ fracDs.isEmpty
        | _ => true
      let expPart : Option (Option (Int × List Char)) :=
        match s3 with
        | 'e' :: t | 'E' :: t =>
          let (esign, t1) := match t with
            | '+' :: u => ((1 : Int), u)
            | '-' :: u => ((-1 : Int), u)
            | _ => ((1 : Int), t)
          let (eds, t2) := takeDigits t1
          if eds.isEmpty then some none
          else some (some (esign * (digitsToNat eds : Int), t2))
        | _ => none
      if ¬ fracOk then none
      else
        let k := fracDs.length
        let mantNum : Nat := digitsToNat intDs * 10 ^ k + digitsToNat fracDs
        let mantInt : Int := if neg then -(mantNum : Int) else (mantNum : Int)
        match expPart with
        | none => some (mkRat mantInt (10 ^ k), s3)
        | some none => none
        | some (some (e, rest)) =>
          if 0 ≤ e then some (mkRat (mantInt * 10 ^ e.toNat) (10 ^ k), rest)
          else some (mkRat mantInt (10 ^ k * 10 ^ (-e).toNat), rest)

/-- String escape handling of `JSON.parse` for one `\uXXXX` unit: surrogate
pairs combine into one scalar; a lone surrogate (unrepresentable in the
scalar-sequence string model) is mapped to U+FFFD, a divergence only
reachable through inputs containing lone surrogates. -/
def jsonUnicodeEscape (n : Nat) (rest : List Char) : Char × List Char :=
  if 0xd800 ≤ n ∧ n ≤ 0xdbff then
    match rest with
    | '\\' :: 'u' :: h1 :: h2 :: h3 :: h4 :: rest2 =>
      match hexVal h1, hexVal h2, hexVal h3, hexVal h4 with
      | some a, some b, some c, some d =>
        let lo := ((a * 16 + b) * 16 + c) * 16 + d
        if 0xdc00 ≤ lo ∧ lo ≤ 0xdfff then
          (Char.ofNat (0x10000 + (n - 0xd800) * 0x400 + (lo - 0xdc00)), rest2)
        else (replacementChar, rest)
      | _, _, _, _ => (replacementChar, rest)
    | _ => (replacementChar, rest)
  else if 0xdc00 ≤ n ∧ n ≤ 0xdfff then (replacementChar, rest)
  else (Char.ofNat n, rest)

/-- String body scanner of `JSON.parse`, after the opening quote: plain
characters at or above U+0020 except `"` and `\`, the short escapes, and
`\uXXXX`.  Returns the decoded characters and the input after the closing
quote. -/
def parseJsonString : Nat → List Char → Option (List Char × List Char)
  | 0, _ => none
  | _ + 1, [] => none
  | fuel + 1, c :: rest =>
    if c = '"' then some ([], rest)
    else if c = '\\' then
      match rest with
      | [] => none
      | e :: rest1 =>
        let unit : Option (Char × List Char) :=
          if e = '"' then some ('"', rest1)
          else if e = '\\' then some ('\\', rest1)
          else if e = '/' then some ('/', rest1)
          else if e = 'b' then some (Char.ofNat 8, rest1)
          else if e = 'f' then some (Char.ofNat 12, rest1)
          else if e = 'n' then some ('\n', rest1)
          else if e = 'r' then some (Char.ofNat 13, rest1)
          else if e = 't' then some ('\t', rest1)
          else if e = 'u' then
            match rest1 with
            | h1 :: h2 :: h3 :: h4 :: rest2 =>
              match hexVal h1, hexVal h2, hexVal h3, hexVal h4 with
              | some a, some b, some cc, some d =>
                some (jsonUnicodeEscape (((a * 16 + b) * 16 + cc) * 16 + d) rest2)
              | _, _, _, _ => none
            | _ => none
          else none
        match unit with
        | none => none
        | some (ch, rest2) =>
          match parseJsonString fuel rest2 with
          | none => none
          | some (cs, rest3) => some (ch :: cs, rest3)
    else if c.toNat < 0x20 then none
    else
      match parseJsonString fuel rest with
      | none => none
      | some (cs, rest2) => some (c :: cs, rest2)

/-- Object-field insertion of `JSON.parse`: a duplicate key overwrites the
value but keeps the original position (JavaScript property creation). -/
def objInsertParse (fields : List (String × Json)) (k : String) (v : Json) :
    List (String × Json) :=
  objSet fields k v

mutual

/-- Value production of `JSON.parse` over the remaining input: leading JSON
whitespace, then an object, array, string, literal or number.  Returns the
value and the unconsumed input.  Fuel decreases on every nested value and
every element/member step; the top-level call supplies more fuel than any
input of that length can consume. -/
def parseJsonValue : Nat → List Char → Option (Json × List Char)
  | 0, _ => none
  | fuel + 1, s =>
    match s.dropWhile isJsonWs with
    | [] => none
    | c :: rest =>
      if c = '{' then
        match rest.dropWhile isJsonWs with
        | '}' :: r2 => some (.obj .nil, r2)
        | r1 => parseJsonMembers fuel r1 []
      else if c = '[' then
        match rest.dropWhile isJsonWs with
        | ']' :: r2 => some (.arr .nil, r2)
        | r1 => parseJsonElements fuel r1 []
      else if c = '"' then
        match parseJsonString (rest.length + 1) rest with
        | some (cs, r2) => some (.str (String.mk cs), r2)
        | none => none
      else if c = 't' then
        match rest with
        | 'r' :: 'u' :: 'e' :: r2 => some (.bool true, r2)
        | _ => none
      else if c = 'f' then
        match rest with
        | 'a' :: 'l' :: 's' :: 'e' :: r2 => some (.bool false, r2)
        | _ => none
      else if c = 'n' then
        match rest with
        | 'u' :: 'l' :: 'l' :: r2 => some (.null, r2)
        | _ => none
      else
        match parseJsonNumber (c :: rest) with
        | some (q, r2) => some (.num q, r2)
        | none => none

/-- Array elements after the first `[` (input known not to start with `]`):
value, then `,` for the next element or `]` to finish. -/
def parseJsonElements : Nat → List Char → List Json → Option (Json × List Char)
  | 0, _, _ => none
  | fuel + 1, s, acc =>
    match parseJsonValue fuel s with
    | none => none
    | some (v, r) =>
      match r.dropWhile isJsonWs with
      | ',' :: r2 => parseJsonElements fuel r2 (acc ++ [v])
      | ']' :: r2 => some (.arr (JsonList.ofList (acc ++ [v])), r2)
      | _ => none

/-- Object members after the first `{` (input known not to start with `}`):
quoted key, `:`, value, then `,` or `}`; duplicate keys overwrite in
place. -/
def parseJsonMembers : Nat → List Char → List (String × Json) →
    Option (Json × List Char)
  | 0, _, _ => none
  | fuel + 1, s, acc =>
    match s.dropWhile isJsonWs with
    | '"' :: r =>
      match parseJsonString (r.length + 1) r with
      | none => none
      | some (kcs, r1) =>
        match r1.dropWhile isJsonWs with
        | ':' :: r2 =>
          match parseJsonValue fuel r2 with
          | none => none
          | some (v, r3) =>
            let acc2 := objInsertParse acc (String.mk kcs) v
            match r3.dropWhile isJsonWs with
            | ',' :: r4 => parseJsonMembers fuel r4 acc2
            | '}' :: r4 => some (.obj (JsonFields.ofList acc2), r4)
            | _ => none
        | _ => none
    | _ => none

end

/-- JSON.parse over a character list: one value, then only trailing JSON
whitespace.  `none` models the `SyntaxError` throw. -/
def jsonParseChars (cs : List Char) : Option Json :=
  match parseJsonValue (2 * cs.length + 2) cs with
  | some (v, rest) => if (rest.dropWhile isJsonWs).isEmpty then some v else none
  | none => none

/-- JSON.parse over a string. -/
def jsonParse (s : String) : Option Json := jsonParseChars s.data

/-- Largest power of `p` dividing `n` (for `p ≥ 2`, `n ≥ 1`). -/
def maxPowDivGo (p : Nat) : Nat → Nat → Nat
  | 0, _ => 0
  | fuel + 1, n => if n % p = 0 ∧ 0 < n then maxPowDivGo p fuel (n / p) + 1 else 0

/-- Largest `e` with `p ^ e` dividing `n`. -/
def maxPowDiv (p n : Nat) : Nat := maxPowDivGo p n n

/-- Decimal digits of an integer with a leading minus sign when negative. -/
def intRepr (i : Int) : String :=
  if i < 0 then "-" ++ Nat.repr i.natAbs else Nat.repr i.natAbs

/-- Left-pad a digit string with zeros to length `k`. -/
def padLeftZeros (s : String) (k : Nat) : String :=
  String.mk (List.replicate (k - s.length) '0') ++ s

/-- Number-to-string conversion used by `String()` and `JSON.stringify`.
For integers: the decimal digits.  For rationals with a `2^a * 5^b`
denominator (every value `JSON.parse` can produce): the exact terminating
decimal expansion, which has no trailing zero and is what JavaScript
prints for such values below the exponent-notation thresholds.  The final
branch (non-terminating expansion, unreachable from parsed JSON) truncates
to 17 fractional digits; JavaScript would print the shortest decimal that
round-trips through binary64. -/
def qToString (q : ℚ) : String :=
  if q.den = 1 then intRepr q.num
  else
    let sign := if q.num < 0 then "-" else ""
    let n := q.num.natAbs
    let d := q.den
    let a := maxPowDiv 2 d
    let b := maxPowDiv 5 d
    if 2 ^ a * 5 ^ b = d then
      let k := max a b
      let scaled := n * 10 ^ k / d
      sign ++ Nat.repr (scaled / 10 ^ k) ++ "." ++
        padLeftZeros (Nat.repr (scaled % 10 ^ k)) k
    else
      sign ++ Nat.repr (n / d) ++ "." ++
        padLeftZeros (Nat.repr (n * 10 ^ 17 / d % 10 ^ 17)) 17

/-- Unsigned decimal part of the JavaScript `Number(string)` grammar
(`StrUnsignedDecimalLiteral` without `Infinity`): digits with optional
fraction and exponent, also `.digits` and `digits.`; the whole input must
be consumed. -/
def parseUnsignedDecimal (u : List Char) : Option ℚ :=
  let (intDs, r1) := takeDigits u
  let (fracDs, r2) :=
    match r1 with
    | '.' :: t => takeDigits t
    | _ => ([], r1)
  let dotted : Bool := match r1 with | '.' :: _ => true | _ => false
  if intDs.isEmpty ∧ fracDs.isEmpty then none
  else if ¬ dotted ∧ ¬ (r1 = r2) then none
  else
    let k := fracDs.length
    let mantNum : Int := (digitsToNat intDs * 10 ^ k + digitsToNat fracDs : Nat)
    match r2 with
    | [] => some (mkRat mantNum (10 ^ k))
    | 'e' :: t | 'E' :: t =>
      let (eneg, t1) := match t with
        | '+' :: u2 => (false, u2)
        | '-' :: u2 => (true, u2)
        | _ => (false, t)
      let (eds, t2) := takeDigits t1
      if eds.isEmpty ∨ ¬ t2.isEmpty then none
      else if eneg then some (mkRat mantNum (10 ^ k * 10 ^ digitsToNat eds))
      else some (mkRat (mantNum * 10 ^ digitsToNat eds) (10 ^ k))
    | _ => none

/-- Digits in base `base` to a natural number via `hexVal` (which covers
decimal, octal, binary and hexadecimal digits). -/
def radixDigitsToNat (base : Nat) (ds : List Char) : Option Nat :=
  ds.foldl
    (fun acc c =>
      match acc, hexVal c with
      | some a, some v => if v < base then some (a * base + v) else none
      | _, _ => none)
    (some 0)

/-- Signed decimal (or `Infinity`) branch of `Number(string)`. -/
def strToNumberSigned (t : List Char) : Option ℚ :=
  let (neg, u) := match t with
    | '-' :: r => (true, r)
    | '+' :: r => (false, r)
    | _ => (false, t)
  if u = "Infinity".data then none
  else (parseUnsignedDecimal u).map (fun q => if neg then ratNeg q else q)

/-- JavaScript `Number(string)` (ToNumber on strings): trim, empty is `0`,
`Infinity` with optional sign is non-finite (`none`, like `NaN`, because
every use in the source guards with `Number.isFinite`), unsigned `0x`/
`0o`/`0b` radix literals, otherwise a signed decimal literal consuming the
whole string; anything else is `NaN` (`none`). -/
def strToNumber (s : List Char) : Option ℚ :=
  let t := trimJs s
  match t with
  | [] => some 0
  | '0' :: x :: rest =>
    if x = 'x' ∨ x = 'X' then
      if rest.isEmpty then none else (radixDigitsToNat 16 rest).map (fun n => (n : ℚ))
    else if x = 'o' ∨ x = 'O' then
      if rest.isEmpty then none else (radixDigitsToNat 8 rest).map (fun n => (n : ℚ))
    else if x = 'b' ∨ x = 'B' then
      if rest.isEmpty then none else (radixDigitsToNat 2 rest).map (fun n => (n : ℚ))
    else strToNumberSigned t
  | _ => strToNumberSigned t

mutual

/-- JavaScript `Number(value)` on JSON values: `null` is 0, booleans are
0/1, numbers pass through, strings via the string grammar, arrays via
`Number(String(array))` (join with commas), plain objects are `NaN`.
`none` stands for a non-finite result (`NaN`/`Infinity`); every use in the
source immediately guards with `Number.isFinite`. -/
def jsToNumber : Json → Option ℚ
  | .null => some 0
  | .bool b => some (if b then 1 else 0)
  | .num q => some q
  | .str s => strToNumber s.data
  | .arr es => strToNumber (jsArrayToString es)
  | .obj _ => none

/-- Array.prototype.toString (join with `,`): `null` elements stringify
empty. -/
def jsArrayToString : JsonList → List Char
  | .nil => []
  | .cons h .nil => jsElemString h
  | .cons h t => jsElemString h ++ ',' :: jsArrayToString t

/-- Element stringification inside `Array.prototype.join`. -/
def jsElemString : Json → List Char
  | .null => []
  | .bool b => if b then "true".data else "false".data
  | .num q => (qToString q).data
  | .str s => s.data
  | .arr es => jsArrayToString es
  | .obj _ => "[object Object]".data

end

/-- Escapes of `JSON.stringify` inside string literals: quote, backslash,
and control characters (short escapes where defined, `\u00xx` otherwise). -/
def escapeJsonChar (c : Char) : List Char :=
  if c = '"' then ['\\', '"']
  else if c = '\\' then ['\\', '\\']
  else if c.toNat < 0x20 then
    if c.toNat = 8 then ['\\', 'b']
    else if c = '\t' then ['\\', 't']
    else if c = '\n' then ['\\', 'n']
    else if c.toNat = 12 then ['\\', 'f']
    else if c.toNat = 13 then ['\\', 'r']
    else
      let hexDigit (n : Nat) : Char :=
        if n < 10 then Char.ofNat ('0'.toNat + n) else Char.ofNat ('a'.toNat + n - 10)
      ['\\', 'u', '0', '0', hexDigit (c.toNat / 16), hexDigit (c.toNat % 16)]
  else [c]

/-- Escaped body of a string literal in `JSON.stringify` output. -/
def escapeJsonString (s : List Char) : List Char :=
  (s.map escapeJsonChar).flatten

mutual

/-- JSON.stringify (no replacer/indent) of a JSON value, as a character
list.  Values reached in the source come from `JSON.parse` plus plain
object merging, so the cyclic-value throw of `JSON.stringify` is
unreachable here and the function is total. -/
def jsonStringifyChars : Json → List Char
  | .null => "null".data
  | .bool b => if b then "true".data else "false".data
  | .num q => (qToString q).data
  | .str s => '"' :: escapeJsonString s.data ++ ['"']
  | .arr es => '[' :: jsonStringifyElems es ++ [']']
  | .obj fs => '{' :: jsonStringifyMembers fs ++ ['}']

/-- Comma-separated array elements of `JSON.stringify`. -/
def jsonStringifyElems : JsonList → List Char
  | .nil => []
  | .cons h .nil => jsonStringifyChars h
  | .cons h t => jsonStringifyChars h ++ ',' :: jsonStringifyElems t

/-- Comma-separated object members of `JSON.stringify`. -/
def jsonStringifyMembers : JsonFields → List Char
  | .nil => []
  | .cons k v .nil => '"' :: escapeJsonString k.data ++ '"' :: ':' :: jsonStringifyChars v
  | .cons k v t =>
    ('"' :: escapeJsonString k.data ++ '"' :: ':' :: jsonStringifyChars v) ++
      ',' :: jsonStringifyMembers t

end

/-- JSON.stringify as a string. -/
def jsonStringify (j : Json) : String := String.mk (jsonStringifyChars j)

/-- A thrown JavaScript `Error` value: its `name` (the error class, `Error`
for plain `new Error(...)`, set explicitly by the `ConversionError` and
`ValidationError` subclasses in `errors.ts`) and its `message`. -/
structure JsError where
  name : String
  message : String
  deriving DecidableEq, Repr

/-- A plain `new Error(message)` throw. -/
def plainError (message : String) : JsError := ⟨"Error", message⟩

/-- Messages of the `parseGlb` throws in `glb-metadata.ts`. -/
def glbErrorMessage : GlbError → String
  | .truncatedHeader => "Invalid GLB: truncated header"
  | .invalidMagic => "Invalid GLB: invalid magic"
  | .truncatedFile d a =>
    "Invalid GLB: truncated file (header " ++ Nat.repr d ++ " > buffer " ++
      Nat.repr a ++ ")"
  | .lengthMismatch d a =>
    "Invalid GLB: length mismatch (header " ++ Nat.repr d ++ " < buffer " ++
      Nat.repr a ++ ")"
  | .truncatedChunk off => "Invalid GLB: truncated chunk at offset " ++ Nat.repr off
  | .missingChunks => "Invalid GLB: missing chunks"
  | .fuelExhausted => "unreachable"

/-- The `padTo4` helper of `glb-metadata.ts` (lines 163-172): right-pad to
the next multiple of four with the given pad byte. -/
def padTo4 (bytes : List Nat) (padByte : Nat) : List Nat :=
  let paddedLength := (bytes.length + 3) / 4 * 4
  bytes ++ List.replicate (paddedLength - bytes.length) padByte

/-- The `buildJsonChunk` helper of `glb-metadata.ts` (lines 151-161):
UTF-8 encode, pad with `0x20`, and prepend the 8-byte chunk header
(payload length, JSON type). -/
def buildJsonChunk (jsonText : String) : List Nat :=
  let data := utf8Encode jsonText.data
  let padded := padTo4 data 0x20
  writeU32 padded.length ++ writeU32 GLB_JSON_CHUNK ++ padded

/-- Fields of a JSON value when it is a plain object, else the empty field
list (the `isPlainObject(x) ? x : {}` defaulting pattern). -/
def objFieldsOrEmpty : Option Json → List (String × Json)
  | some (.obj fs) => fs.toList
  | _ => []

/-- The Metadata Patcher `injectAssetExtrasIntoGlb` of `glb-metadata.ts`
(lines 15-65): reject a non-plain-object extras payload (plain `Error`,
before touching the GLB buffer); parse the GLB; locate the first JSON
chunk; decode UTF-8, trim trailing whitespace, `JSON.parse`; require an
object root; default `asset` and `asset.extras` to `{}` when absent or not
plain objects; spread-merge `extras` over the existing extras; assign the
merged extras and the asset back; re-serialize, build a fresh padded JSON
chunk, substitute it at the JSON chunk's position with every other chunk's
raw bytes passed through, and rebuild.  `JSON.stringify` cannot throw on
these tree values, so the `not JSON-serializable` branch of the source is
unreachable in the model.  The model is pure: the input buffer is shared,
never written. -/
def injectAssetExtrasIntoGlb (glb : List Nat) (extras : Json) :
    Except JsError (List Nat) :=
  if ¬ isPlainObject extras then
    .error (plainError "Invalid extras payload: expected an object")
  else
    match parseGlb glb with
    | .error e => .error (plainError (glbErrorMessage e))
    | .ok parsed =>
      match parsed.chunks.findIdx? (fun c => c.ctype = GLB_JSON_CHUNK) with
      | none => .error (plainError "Invalid GLB: missing JSON chunk")
      | some jsonChunkIndex =>
        let chunk := (parsed.chunks.get? jsonChunkIndex).getD ⟨0, [], []⟩
        let jsonText := trimEndJs (utf8Decode chunk.data)
        match jsonParseChars jsonText with
        | none => .error (plainError "Invalid GLB: JSON chunk is not valid JSON")
        | some json =>
          if ¬ isPlainObject json then
            .error (plainError "Invalid GLB: JSON chunk root is not an object")
          else
            let assetFields := objFieldsOrEmpty (json.getField "asset")
            let existingExtras := objFieldsOrEmpty ((Json.obj
              (JsonFields.ofList assetFields)).getField "extras")
            let mergedExtras := spreadMerge existingExtras (objFieldsOrEmpty (some extras))
            let assetFields2 := objSet assetFields "extras" (.obj (JsonFields.ofList mergedExtras))
            let jsonFields2 := objSet (objFieldsOrEmpty (some json)) "asset"
              (.obj (JsonFields.ofList assetFields2))
            let nextJsonText := jsonStringify (.obj (JsonFields.ofList jsonFields2))
            let nextJsonChunk := buildJsonChunk nextJsonText
            let nextChunks := (parsed.chunks.enum.map
              (fun ci => if ci.1 = jsonChunkIndex then nextJsonChunk else ci.2.raw))
            .ok (buildGlb parsed.version nextChunks)

/-- Distinct failure causes of `parseGlbJson` in `glb-parse.ts`.
`invalidJson` is the propagated `SyntaxError` of `JSON.parse`.
`fuelExhausted` is unreachable (fuel exceeds the chunk-walk bound). -/
inductive GlbParseError where
  | truncatedHeader
  | invalidMagic
  | truncatedChunk
  | invalidJson
  | missingJsonChunk
  | fuelExhausted
  deriving DecidableEq, Repr

/-- Messages of the `parseGlbJson` throws in `glb-parse.ts` (the
`SyntaxError` of `JSON.parse` carries an engine-dependent message). -/
def glbParseErrorMessage : GlbParseError → String
  | .truncatedHeader => "Invalid GLB: truncated header"
  | .invalidMagic => "Invalid GLB: invalid magic"
  | .truncatedChunk => "Invalid GLB: truncated chunk"
  | .invalidJson => "Unexpected token in JSON"
  | .missingJsonChunk => "Invalid GLB: missing JSON chunk"
  | .fuelExhausted => "unreachable"

/-- The thrown `Error` corresponding to a `parseGlbJson` failure: the
`SyntaxError` of `JSON.parse` keeps its class name, the rest are plain
`Error`s. -/
def glbParseJsError : GlbParseError → JsError
  | .invalidJson => ⟨"SyntaxError", glbParseErrorMessage .invalidJson⟩
  | e => plainError (glbParseErrorMessage e)

/-- The `isGlbMagic` helper of `glb-parse.ts` (lines 54-64): at least four
bytes, comparing against the ASCII bytes of `glTF`. -/
def isGlbMagic (glb : List Nat) : Bool :=
  4 ≤ glb.length ∧ glb.getD 0 0 = 0x67 ∧ glb.getD 1 0 = 0x6c ∧
    glb.getD 2 0 = 0x54 ∧ glb.getD 3 0 = 0x46

/-- Chunk walk of `parseGlbJson` in `glb-parse.ts` (lines 16-31): find the
first JSON-typed chunk, decode it as UTF-8 and `JSON.parse` it; running
past the last chunk header means no JSON chunk exists. -/
def parseGlbJsonGo (glb : List Nat) : Nat → Nat → Except GlbParseError Json
  | 0, _ => .error .fuelExhausted
  | fuel + 1, offset =>
    if offset + GLB_CHUNK_HEADER_LENGTH ≤ glb.length then
      let chunkLength := readU32 glb offset
      let chunkType := readU32 glb (offset + 4)
      let chunkStart := offset + GLB_CHUNK_HEADER_LENGTH
      let chunkEnd := chunkStart + chunkLength
      if chunkEnd > glb.length then .error .truncatedChunk
      else if chunkType = GLB_JSON_CHUNK then
        match jsonParseChars (utf8Decode (byteSlice glb chunkStart chunkEnd)) with
        | some j => .ok j
        | none => .error .invalidJson
      else parseGlbJsonGo glb fuel chunkEnd
    else .error .missingJsonChunk

/-- `parseGlbJson` of `glb-parse.ts` (lines 6-33): header-size check, byte
magic check, then the chunk walk.  Unlike the Codec's `parseGlb`, the
declared total length is not compared with the buffer length. -/
def parseGlbJson (glb : List Nat) : Except GlbParseError Json :=
  if glb.length < GLB_HEADER_LENGTH + GLB_CHUNK_HEADER_LENGTH then
    .error .truncatedHeader
  else if ¬ isGlbMagic glb then .error .invalidMagic
  else parseGlbJsonGo glb (glb.length + 1) GLB_HEADER_LENGTH

/-- The `GlbGeometryStats` record of `glb-geometry` (all counts are derived
from the GLB JSON; `triangles` accumulates `Math.floor` results and is kept
as an integer). -/
structure GlbGeometryStats where
  triangles : Int
  meshCount : Nat
  nodeCount : Nat
  primitiveCount : Nat
  nodesWithMeshCount : Nat
  primitivesWithPositionCount : Nat
  deriving DecidableEq, Repr

/-- Array elements of a field expected to be an array, else the empty list
(the `Array.isArray(x) ? x : []` defaulting pattern of the source). -/
def arrOrEmpty (j : Option Json) : List Json :=
  match j with
  | some (.arr es) => es.toList
  | _ => []

/-- JavaScript array indexing `xs[q]` with a number key: an element for a
canonical non-negative integer index below the length, `undefined`
otherwise (fractional or negative indices name absent properties). -/
def arrGetNum (xs : List Json) (q : ℚ) : Option Json :=
  if q.den = 1 ∧ 0 ≤ q.num ∧ q.num < xs.length then xs.get? q.num.toNat else none

/-- Numeric `count` of `accessors[idx]` as the source reads it:
`Number(accessor?.count)`, `none` when the accessor is missing or the
coercion is not finite. -/
def accessorCountAt (accessors : List Json) (idx : ℚ) : Option ℚ :=
  match arrGetNum accessors idx with
  | some a =>
    match a.getField "count" with
    | some c => jsToNumber c
    | none => none
  | none => none

/-- Triangle contribution of one primitive in `summarizeGlbGeometry`
(part_004 lines 166-191): non-number `mode` defaults to 4 (TRIANGLES);
other modes contribute 0; a numeric `indices` field selects the index
accessor (no fallback to POSITION even if that accessor is unusable);
otherwise a numeric POSITION attribute selects the position accessor; the
selected accessor contributes `floor(count / 3)` when its coerced `count`
is finite and positive. -/
def primTriangles (accessors : List Json) (prim : Json) : Int :=
  let mode : ℚ := match prim.getField "mode" with
    | some (.num m) => m
    | _ => 4
  if mode ≠ 4 then 0
  else
    match prim.getField "indices" with
    | some (.num idx) =>
      match accessorCountAt accessors idx with
      | some c => if ratPosB c then ratFloorDiv3 c else 0
      | none => 0
    | _ =>
      match (prim.getField "attributes").bind (fun a => a.getField "POSITION") with
      | some (.num pidx) =>
        match accessorCountAt accessors pidx with
        | some c => if ratPosB c then ratFloorDiv3 c else 0
        | none => 0
      | _ => 0

/-- Whether a primitive has a numeric POSITION attribute (counted by
`primitivesWithPositionCount`). -/
def primHasPosition (prim : Json) : Bool :=
  match (prim.getField "attributes").bind (fun a => a.getField "POSITION") with
  | some (.num _) => true
  | _ => false

/-- The `(mesh?.primitives ?? []).forEach` pattern: absent or null
`primitives` iterate nothing; a non-null non-array value has no `forEach`
and throws a `TypeError` (engine-worded message). -/
def meshPrimitives (mesh : Json) : Except JsError (List Json) :=
  match mesh.getField "primitives" with
  | some (.arr ps) => .ok ps.toList
  | some .null => .ok []
  | none => .ok []
  | some _ => .error ⟨"TypeError", "forEach is not a function"⟩

/-- All primitives of all meshes in order, with the first bad
`primitives` field's `TypeError` propagated. -/
def gltfPrimitives : List Json → Except JsError (List Json)
  | [] => .ok []
  | mesh :: rest =>
    match meshPrimitives mesh with
    | .error e => .error e
    | .ok ps =>
      match gltfPrimitives rest with
      | .error e => .error e
      | .ok rs => .ok (ps ++ rs)

/-- Whether a node's `mesh` field is a number (counted by
`nodesWithMeshCount`). -/
def nodeHasMesh (node : Json) : Bool :=
  match node.getField "mesh" with
  | some (.num _) => true
  | _ => false

/-- The pure part of `summarizeGlbGeometry` (part_004 lines 150-207) over
the parsed GLB JSON: default the `accessors`, `meshes` and `nodes` arrays
to empty when absent or not arrays, walk every mesh's primitives
accumulating the counts, and count nodes with a numeric `mesh`. -/
def summarizeGltf (gltf : Json) : Except JsError GlbGeometryStats :=
  let accessors := arrOrEmpty (gltf.getField "accessors")
  let meshes := arrOrEmpty (gltf.getField "meshes")
  let nodes := arrOrEmpty (gltf.getField "nodes")
  match gltfPrimitives meshes with
  | .error e => .error e
  | .ok prims =>
    .ok
      { triangles := (prims.map (primTriangles accessors)).sum
        meshCount := meshes.length
        nodeCount := nodes.length
        primitiveCount := prims.length
        nodesWithMeshCount := (nodes.filter nodeHasMesh).length
        primitivesWithPositionCount := (prims.filter primHasPosition).length }

/-- `summarizeGlbGeometry` of part_004: parse the GLB's JSON chunk (this
throw propagates — there is no catch in the source) and summarize it. -/
def summarizeGlbGeometry (glb : List Nat) : Except JsError GlbGeometryStats :=
  match parseGlbJson glb with
  | .error e => .error (glbParseJsError e)
  | .ok gltf => summarizeGltf gltf

/-- JavaScript regex word character (`\w`, and the classes `\b` compares):
ASCII letters, digits and underscore. -/
def isWordCharJs (c : Char) : Bool :=
  ('a' ≤ c ∧ c ≤ 'z') ∨ ('A' ≤ c ∧ c ≤ 'Z') ∨ isDigitChar c ∨ c = '_'

/-- Word-character test of an optional character (`none` is the string
edge, a non-word position). -/
def isWordOpt : Option Char → Bool
  | none => false
  | some c => isWordCharJs c

/-- Whether a word boundary (`\b`) separates the end of the consumed match
from the remaining input, whose first character follows a digit. -/
def boundaryEnd (rest : List Char) : Bool :=
  match rest with
  | [] => true
  | c :: _ => ¬ isWordCharJs c

/-- Group loop of matching `(?::\d+)+\b` after the leading digits of
`/\b\d+(?::\d+)+\b/`: greedily consume `:`-plus-digit-run groups.  The
trailing `\b` follows a digit, so backtracking inside a digit run can never
create a boundary; dropping whole groups can, and any non-final group end
is followed by `:` (a non-word character) where the boundary holds.  The
greedy-with-backtracking result is therefore the longest group count whose
end lies at a boundary, tracked here in `best`. -/
def ocafGroupsGo : Nat → List Char → List Char → Option (List Char × List Char) →
    Option (List Char × List Char)
  | 0, _, _, best => best
  | fuel + 1, acc, s, best =>
    match s with
    | ':' :: t =>
      let (ds, r) := takeDigits t
      if ds.isEmpty then best
      else
        let acc2 := acc ++ ':' :: ds
        let best2 := if boundaryEnd r then some (acc2, r) else best
        ocafGroupsGo fuel acc2 r best2
    | _ => best

/-- One anchored match attempt of `/\b\d+(?::\d+)+\b/` at the current
position (`prev` is the character before it): leading `\b`, maximal digit
run, then the group loop.  Returns the matched characters and the rest. -/
def ocafMatchAt (prev : Option Char) (s : List Char) : Option (List Char × List Char) :=
  if isWordOpt prev then none
  else
    let (d1, r1) := takeDigits s
    if d1.isEmpty then none
    else ocafGroupsGo (r1.length + 1) d1 r1 none

/-- Global scan of `name.match(/\b\d+(?::\d+)+\b/g)`: try each position
left to right, consuming each match (every match is nonempty, so the
regex's `lastIndex` always advances). -/
def ocafScan : Nat → Option Char → List Char → List (List Char)
  | 0, _, _ => []
  | _ + 1, _, [] => []
  | fuel + 1, prev, s =>
    match ocafMatchAt prev s with
    | some (m, rest) => m :: ocafScan fuel m.getLast? rest
    | none =>
      match s with
      | [] => []
      | c :: t => ocafScan fuel (some c) t

/-- All matches of the OCAF-entry regex in a name. -/
def ocafMatches (name : List Char) : List (List Char) :=
  ocafScan (name.length + 1) none name

/-- `extractOcafEntryFromName` of `gltf-mapping.ts` (lines 8-11): the last
match of `/\b\d+(?::\d+)+\b/g`, or `null` when the regex finds nothing. -/
def extractOcafEntryFromName (name : String) : Option String :=
  ((ocafMatches name.data).getLast?).map String.mk

/-- Whether `/\b\d+(?::\d+)+\b/.test(inside)` holds (the regex finds at
least one match). -/
def testOcafEntry (s : List Char) : Bool :=
  ¬ (ocafMatches s).isEmpty

/-- Whether `/NAUO\d+/i.test(inside)` holds: the letters `NAUO`
(case-insensitive) immediately followed by a digit, anywhere. -/
def testNAUO : List Char → Bool
  | a :: b :: c :: d :: e :: t =>
    (a.toLower = 'n' ∧ b.toLower = 'a' ∧ c.toLower = 'u' ∧ d.toLower = 'o' ∧
        isDigitChar e) ∨
      testNAUO (b :: c :: d :: e :: t)
  | _ => false

/-- Split on `/\s*\[/` as `String.prototype.split` performs it: each `[`
ends the current segment, whose maximal trailing whitespace run belongs to
the separator. -/
def splitWsBracket : List Char → List Char → List (List Char)
  | [], cur => [cur]
  | '[' :: t, cur => trimEndJs cur :: splitWsBracket t []
  | c :: t, cur => splitWsBracket t (cur ++ [c])

/-- Collapse of `/\s+/g` replacement by a single space. -/
def collapseWs : Nat → List Char → List Char
  | 0, _ => []
  | _ + 1, [] => []
  | fuel + 1, c :: t =>
    if isJsWhitespace c then ' ' :: collapseWs fuel (t.dropWhile isJsWhitespace)
    else c :: collapseWs fuel t

/-- Keep-or-drop decision for one bracketed segment of
`cleanGltfNodeName` (lines 24-41): need a closing bracket, non-empty
trimmed content, no OCAF entry, no NAUO tag; kept segments are re-wrapped
in brackets. -/
def cleanSegment (seg : List Char) : Option (List Char) :=
  match seg.findIdx? (fun c => c = ']') with
  | none => none
  | some closeIndex =>
    let inside := trimJs (seg.take closeIndex)
    if inside.isEmpty then none
    else if testOcafEntry inside then none
    else if testNAUO inside then none
    else some ('[' :: inside ++ [']'])

/-- `cleanGltfNodeName` of `gltf-mapping.ts` (lines 13-45): trim; split on
`\s*\[`; keep the first segment trimmed and each surviving bracketed
segment; join with single spaces, collapse whitespace runs, trim; fall
back to the trimmed original when nothing survives. -/
def cleanGltfNodeName (name : String) : String :=
  let trimmed := trimJs name.data
  if trimmed.isEmpty then ""
  else
    match splitWsBracket trimmed [] with
    | [] => String.mk trimmed
    | [_] => String.mk trimmed
    | p0 :: rest =>
      let cleaned := trimJs p0 :: rest.filterMap cleanSegment
      let joined := List.intercalate [' '] (cleaned.filter (fun s => ¬ s.isEmpty))
      let result := trimJs (collapseWs (joined.length + 1) joined)
      if result.isEmpty then String.mk trimmed else String.mk result

/-- The pure part of `buildPrettyNameOverridesFromGlb` in `gltf-mapping.ts`
(lines 47-65) over the parsed GLB JSON: walk `nodes` in order; for each
node with a truthy string `name` whose extracted OCAF entry is new, record
the cleaned display name, but only when it is non-empty and differs from
the entry itself. -/
def prettyNameStep (overrides : List (String × String)) (node : Json) :
    List (String × String) :=
  match node.getField "name" with
  | some (.str s) =>
    if s = "" then overrides
    else
      match extractOcafEntryFromName s with
      | none => overrides
      | some entry =>
        if (overrides.lookup entry).isSome then overrides
        else
          let cleaned := cleanGltfNodeName s
          if cleaned ≠ "" ∧ cleaned ≠ entry then overrides ++ [(entry, cleaned)]
          else overrides
  | _ => overrides

/-- Fold of `buildPrettyNameOverridesFromGlb` over the node list. -/
def buildPrettyNameOverridesGltf (gltf : Json) : List (String × String) :=
  (arrOrEmpty (gltf.getField "nodes")).foldl prettyNameStep []

/-- `buildPrettyNameOverridesFromGlb` of `gltf-mapping.ts`: `parseGlbJson`
(whose throw propagates — there is no catch) then the node walk. -/
def buildPrettyNameOverridesFromGlb (glb : List Nat) :
    Except JsError (List (String × String)) :=
  match parseGlbJson glb with
  | .error e => .error (glbParseJsError e)
  | .ok gltf => .ok (buildPrettyNameOverridesGltf gltf)

/-- Entry of the Identity Mapper's index (`GltfNodeIndex` in
`gltf-mapping.ts`): the glTF node array index and, when the node has a
numeric `mesh`, that mesh index. -/
structure GltfNodeIndex where
  gltfNodeIndex : Nat
  gltfMeshIndex : Option ℚ
  deriving DecidableEq, Repr

/-- The pure part of `buildGltfNodeIndexByOcafEntry` in `gltf-mapping.ts`
(lines 67-86) over the parsed GLB JSON: walk `nodes` with their indices;
for each node with a truthy string `name` whose extracted OCAF entry is
new (first occurrence wins), record the node index and optional mesh
index. -/
def buildGltfNodeIndexGltf (gltf : Json) : List (String × GltfNodeIndex) :=
  (arrOrEmpty (gltf.getField "nodes")).enum.foldl
    (fun m p =>
      match p.2.getField "name" with
      | some (.str s) =>
        if s = "" then m
        else
          match extractOcafEntryFromName s with
          | none => m
          | some entry =>
            if (m.lookup entry).isSome then m
            else
              let meshIndex := match p.2.getField "mesh" with
                | some (.num q) => some q
                | _ => none
              m ++ [(entry, ⟨p.1, meshIndex⟩)]
      | _ => m)
    []

/-- `buildGltfNodeIndexByOcafEntry` of `gltf-mapping.ts`: `parseGlbJson`
(throw propagates) then the indexed node walk. -/
def buildGltfNodeIndexByOcafEntry (glb : List Nat) :
    Except JsError (List (String × GltfNodeIndex)) :=
  match parseGlbJson glb with
  | .error e => .error (glbParseJsError e)
  | .ok gltf => .ok (buildGltfNodeIndexGltf gltf)

/-- `TriangulateOptions` of `types.ts` as the retry loop reads them: the
deflections, the `relative` flag and the opaque `parallel` flag. -/
structure TriangulateOptions where
  linearDeflection : Option ℚ := none
  angularDeflection : Option ℚ := none
  relative : Option Bool := none
  parallel : Option Bool := none
  deriving DecidableEq, Repr

/-- `TriangulationAttemptInput` of `triangulation-policy` (base deflections
and the passthrough parallel flag). -/
structure TriangulationAttemptInput where
  linearDeflection0 : ℚ
  angularDeflection0 : ℚ
  parallel : Option Bool
  deriving DecidableEq, Repr

/-- `TriangulationAttempt` of `triangulation-policy`: the schedule entry,
with `relative` a literal field that the source types as `false`. -/
structure TriangulationAttempt where
  linearDeflection : ℚ
  angularDeflection : ℚ
  relative : Bool
  parallel : Option Bool
  deriving DecidableEq, Repr

/-- `getTriangulationForAttempt` of `triangulation-policy` (lines 125-155
of the file containing it): attempt 0 (the source tests `attemptIndex <=
0`, which over natural attempt indices is 0) passes the base deflections
through; attempt 1 doubles the linear deflection and scales the angular
deflection by 1.4 capped at 1.0; attempts at least 2 quadruple the base
linear deflection and scale the base angular deflection by 1.8 capped at
1.2; `relative` is always `false`.  The multiplications and `Math.min` are
exact here; in binary64 the products with 1.4 and 1.8 round, which at the
deflection magnitudes involved agrees with the rational value to within
one unit in the last place and coincides exactly for the documented
example inputs. -/
def getTriangulationForAttempt (input : TriangulationAttemptInput)
    (attemptIndex : Nat) : TriangulationAttempt :=
  if attemptIndex = 0 then
    ⟨input.linearDeflection0, input.angularDeflection0, false, input.parallel⟩
  else if attemptIndex = 1 then
    ⟨jsMul input.linearDeflection0 2, jsMin 1 (jsMul input.angularDeflection0 (mkRat 14 10)),
      false, input.parallel⟩
  else
    ⟨jsMul input.linearDeflection0 4,
      jsMin (mkRat 12 10) (jsMul input.angularDeflection0 (mkRat 18 10)),
      false, input.parallel⟩

/-- Threshold record of `triangulation-policy`. -/
structure TriangleExplosionThresholds where
  MAX_TRIANGLES : Int
  MAX_PRIMITIVES : Nat
  deriving DecidableEq, Repr

/-- Default thresholds `TRIANGLE_EXPLOSION_THRESHOLDS` of
`triangulation-policy`. -/
def TRIANGLE_EXPLOSION_THRESHOLDS : TriangleExplosionThresholds :=
  ⟨5000000, 50000⟩

/-- `isTriangleExplosion` of `triangulation-policy`: triangle count above
`MAX_TRIANGLES` or primitive count above `MAX_PRIMITIVES`. -/
def isTriangleExplosion (meshStats : GlbGeometryStats)
    (thresholds : TriangleExplosionThresholds) : Bool :=
  meshStats.triangles > thresholds.MAX_TRIANGLES ∨
    meshStats.primitiveCount > thresholds.MAX_PRIMITIVES

/-- Structured `detail` payloads of the conversion warnings. -/
inductive WarningDetail where
  | relativeForced (triangulateOriginal triangulateForced : TriangulateOptions)
  | explosion (attempt : Nat) (thresholds : TriangleExplosionThresholds)
      (meshStats : GlbGeometryStats) (triangulateUsed : TriangulationAttempt)
  deriving DecidableEq, Repr

/-- `ConversionWarning` of `conversion.ts`. -/
structure ConversionWarning where
  code : String
  message : String
  detail : WarningDetail
  deriving DecidableEq, Repr

/-- `GlbConversionOptions` of `conversion.ts` as the retry loop reads them
(`nameFormat` and `unitScaleToMeters` are forwarded opaquely to the kernel
write call, which this model takes as a supplied per-attempt function). -/
structure GlbConversionOptions where
  triangulate : Option TriangulateOptions := none
  attempts : Option Nat := none
  triangleExplosionThresholds : Option TriangleExplosionThresholds := none

/-- `GlbConversionResult` of `conversion.ts`. -/
structure GlbConversionResult where
  glb : List Nat
  meshStats : GlbGeometryStats
  triangulateUsed : TriangulationAttempt
  conversionWarnings : List ConversionWarning
  deriving DecidableEq, Repr

/-- The `mesh/triangle-explosion-retry` warning pushed for an exploded
attempt that is not the last. -/
def retryWarning (attempt : Nat) (thresholds : TriangleExplosionThresholds)
    (meshStats : GlbGeometryStats) (triangulateUsed : TriangulationAttempt) :
    ConversionWarning :=
  ⟨"mesh/triangle-explosion-retry",
    "Triangle explosion detected on attempt " ++ Nat.repr attempt ++
      "; meshing was coarsened and retried.",
    .explosion attempt thresholds meshStats triangulateUsed⟩

/-- The `mesh/triangle-explosion-unresolved` warning pushed when the final
attempt is still exploded. -/
def unresolvedWarning (attempt : Nat) (thresholds : TriangleExplosionThresholds)
    (meshStats : GlbGeometryStats) (triangulateUsed : TriangulationAttempt) :
    ConversionWarning :=
  ⟨"mesh/triangle-explosion-unresolved",
    "Triangle explosion thresholds were exceeded after the final attempt.",
    .explosion attempt thresholds meshStats triangulateUsed⟩

/-- The `for` loop of `convertDocumentToGlbWithRetries` (conversion.ts
lines 331-380): compute the schedule for this attempt, obtain the
attempt's GLB from the kernel triangulate+write (the supplied `writeGlb`
function), measure it with `summarizeGlbGeometry` (whose throw
propagates), and stop at the first non-exploded result; an exploded
non-final attempt pushes a retry warning and continues; an exploded final
attempt pushes the unresolved warning and returns that result.  Fuel
counts the remaining permitted attempts, so the zero case is the
post-loop `Failed to generate GLB output.` throw, unreachable because the
loop always gets at least one attempt. -/
def convertGo (writeGlb : Nat → List Nat) (base : TriangulationAttemptInput)
    (attempts : Nat) (thresholds : TriangleExplosionThresholds) :
    Nat → Nat → List ConversionWarning → Except JsError GlbConversionResult
  | 0, _, _ => .error (plainError "Failed to generate GLB output.")
  | fuel + 1, attempt, warnings =>
    let triangulateUsed := getTriangulationForAttempt base attempt
    let glb := writeGlb attempt
    match summarizeGlbGeometry glb with
    | .error e => .error e
    | .ok meshStats =>
      if ¬ isTriangleExplosion meshStats thresholds then
        .ok ⟨glb, meshStats, triangulateUsed, warnings⟩
      else if attempt < attempts - 1 then
        convertGo writeGlb base attempts thresholds fuel (attempt + 1)
          (warnings ++ [retryWarning attempt thresholds meshStats triangulateUsed])
      else
        .ok ⟨glb, meshStats, triangulateUsed,
          warnings ++ [unresolvedWarning attempt thresholds meshStats triangulateUsed]⟩

/-- `convertDocumentToGlbWithRetries` of `conversion.ts` (lines 299-387),
with the kernel triangulate+write pair modelled as the supplied
`writeGlb : attempt index → GLB bytes` function: emit the
relative-forced warning when the original options asked for relative
deflection, default the base deflections to 1 and 0.5, clamp the attempt
count to at least 1 (default 3), and run the retry loop. -/
def convertDocumentToGlbWithRetries (writeGlb : Nat → List Nat)
    (options : GlbConversionOptions) : Except JsError GlbConversionResult :=
  let triangulateOriginal := options.triangulate.getD {}
  let warnings0 : List ConversionWarning :=
    if triangulateOriginal.relative = some true then
      [⟨"mesh/relative-forced-false",
        "Relative deflection was disabled to ensure absolute tessellation.",
        .relativeForced triangulateOriginal
          ⟨triangulateOriginal.linearDeflection, triangulateOriginal.angularDeflection,
            some false, triangulateOriginal.parallel⟩⟩]
    else []
  let linearDeflection0 := triangulateOriginal.linearDeflection.getD 1
  let angularDeflection0 := triangulateOriginal.angularDeflection.getD (mkRat 1 2)
  let attempts := max 1 (options.attempts.getD 3)
  let thresholds :=
    options.triangleExplosionThresholds.getD TRIANGLE_EXPLOSION_THRESHOLDS
  convertGo writeGlb ⟨linearDeflection0, angularDeflection0, triangulateOriginal.parallel⟩
    attempts thresholds attempts 0 warnings0

/-- A raw assembly node as `buildMappedNodeMap` reads it from the
kernel-provided node map.  `labelEntry` is `none` when the field is
missing or not a string (the source checks `typeof node.labelEntry ===
'string'`); `children` is `none` when not an array. -/
structure RawAssemblyNode where
  id : String
  name : String
  productId : String
  parentId : Option String := none
  children : Option (List String) := none
  labelEntry : Option String := none
  deriving DecidableEq, Repr

/-- A kernel-provided raw node map: root ids and the node entries in
`Object.entries` order (a JavaScript object's keys are unique). -/
structure RawNodeMap where
  roots : List String
  nodes : List (String × RawAssemblyNode)
  deriving DecidableEq, Repr

/-- `ConvertedNode` of `conversion.ts`. -/
structure ConvertedNode where
  id : String
  name : String
  productId : String
  parentId : Option String
  childrenIds : List String
  gltfNodeIndex : Nat
  gltfMeshIndex : Option ℚ
  deriving DecidableEq, Repr

/-- `MappedNodeMap` of `conversion.ts`. -/
structure MappedNodeMap where
  roots : List String
  nodes : List (String × ConvertedNode)
  deriving DecidableEq, Repr

/-- Failures of `buildMappedNodeMap`: the two mapping errors (plain
`Error`s in the source whose messages name the offending node id and the
repeated index, kept as payloads here) and a propagated `parseGlbJson`
failure from building the Identity Mapper's index. -/
inductive MapError where
  | missingGltfMapping (nodeId : String)
  | duplicateGltfMapping (index : Nat)
  | parseFailure (e : JsError)
  deriving DecidableEq, Repr

/-- Messages of the `buildMappedNodeMap` throws in `conversion.ts`. -/
def mapErrorMessage : MapError → String
  | .missingGltfMapping nodeId => "Missing glTF mapping for node " ++ nodeId
  | .duplicateGltfMapping index =>
    "Duplicate glTF node mapping for index " ++ Nat.repr index
  | .parseFailure e => e.message

/-- The glTF node index a raw node map entry resolves to through the
Identity Mapper's index, if any. -/
def resolveIdx (idx : List (String × GltfNodeIndex))
    (p : String × RawAssemblyNode) : Option Nat :=
  (p.2.labelEntry.bind (fun le => idx.lookup le)).map (fun g => g.gltfNodeIndex)

/-- Loop body of `buildMappedNodeMap` (conversion.ts lines 399-428) over
the remaining entries: resolve each node's `labelEntry` through the index
(failure throws `Missing glTF mapping for node <id>`), reject a glTF node
index already used (`Duplicate glTF node mapping for index <n>`), and
record the converted node, preferring a non-empty pretty name. -/
def buildMappedGo (idx : List (String × GltfNodeIndex))
    (pretty : List (String × String)) :
    List (String × RawAssemblyNode) → List Nat → List (String × ConvertedNode) →
    Except MapError (List (String × ConvertedNode))
  | [], _, acc => .ok acc
  | (nodeId, node) :: rest, used, acc =>
    match node.labelEntry.bind (fun le => idx.lookup le) with
    | none => .error (.missingGltfMapping nodeId)
    | some mapping =>
      if mapping.gltfNodeIndex ∈ used then
        .error (.duplicateGltfMapping mapping.gltfNodeIndex)
      else
        let name := match node.labelEntry.bind (fun le => pretty.lookup le) with
          | some s => if s = "" then node.name else s
          | none => node.name
        buildMappedGo idx pretty rest (mapping.gltfNodeIndex :: used)
          (acc ++ [(nodeId,
            ⟨node.id, name, node.productId, node.parentId, node.children.getD [],
              mapping.gltfNodeIndex, mapping.gltfMeshIndex⟩)])

/-- `buildMappedNodeMap` of `conversion.ts` (lines 389-431): build the
Identity Mapper's index and the pretty-name overrides from the GLB (their
parse failures propagate), then fold the raw entries. -/
def buildMappedNodeMap (nodeMapRaw : RawNodeMap) (glb : List Nat) :
    Except MapError MappedNodeMap :=
  match buildGltfNodeIndexByOcafEntry glb with
  | .error e => .error (.parseFailure e)
  | .ok idx =>
    match buildPrettyNameOverridesFromGlb glb with
    | .error e => .error (.parseFailure e)
    | .ok pretty =>
      match buildMappedGo idx pretty nodeMapRaw.nodes [] [] with
      | .error e => .error e
      | .ok ns => .ok ⟨nodeMapRaw.roots, ns⟩

/-- Builder for concrete GLB test vectors, mirroring the repository's test
harness: a single JSON chunk whose text is padded with `0x20` to a 4-byte
boundary, with a correct total length in the header and version 2. -/
def mkGlbFromJsonText (text : String) : List Nat :=
  let bytes := utf8Encode text.data
  let padded := padTo4 bytes 0x20
  let totalLength := GLB_HEADER_LENGTH + GLB_CHUNK_HEADER_LENGTH + padded.length
  writeU32 GLB_MAGIC ++ writeU32 2 ++ writeU32 totalLength ++
    writeU32 padded.length ++ writeU32 GLB_JSON_CHUNK ++ padded

/-- Greedy group consumption for the boundary-free comparison regex
`\d+(:\d+)+` (claim C8's wording without the source's `\b` anchors):
consume `:`-plus-digit-run groups as long as possible. -/
def nbGroups : Nat → List Char → Option (List Char × List Char)
  | 0, _ => none
  | fuel + 1, s =>
    match s with
    | ':' :: t =>
      let (ds, r) := takeDigits t
      if ds.isEmpty then none
      else
        match nbGroups fuel r with
        | some (g, r2) => some (':' :: ds ++ g, r2)
        | none => some (':' :: ds, r)
    | _ => none

/-- Anchored match of `\d+(:\d+)+` (no word boundaries) at the current
position. -/
def nbMatchAt (s : List Char) : Option (List Char × List Char) :=
  let (d1, r1) := takeDigits s
  if d1.isEmpty then none
  else
    match nbGroups (r1.length + 1) r1 with
    | some (g, r) => some (d1 ++ g, r)
    | none => none

/-- Global scan of `/\d+(?::\d+)+/g` (no word boundaries), for comparison
with the source's boundary-anchored scan. -/
def nbScan : Nat → List Char → List (List Char)
  | 0, _ => []
  | _ + 1, [] => []
  | fuel + 1, s =>
    match nbMatchAt s with
    | some (m, rest) => m :: nbScan fuel rest
    | none =>
      match s with
      | [] => []
      | _ :: t => nbScan fuel t

/-- Modelled from claim C8's words: the last substring matching
`\d+(:\d+)+` found anywhere in the name (JavaScript global-match order,
without the word-boundary anchors the source regex carries). -/
def specLastMatchNoBoundary (name : String) : Option String :=
  ((nbScan (name.data.length + 1) name.data).getLast?).map String.mk

/-- Split on `:` (all positions). -/
def splitColon : List Char → List Char → List (List Char)
  | [], cur => [cur]
  | ':' :: t, cur => cur :: splitColon t []
  | c :: t, cur => splitColon t (cur ++ [c])

/-- Declarative OCAF-identifier shape `\d+(:\d+)+`: at least two
colon-separated groups, each a non-empty digit run. -/
def isOcafShape (s : List Char) : Bool :=
  let gs := splitColon s []
  2 ≤ gs.length ∧ gs.all (fun g => ¬ g.isEmpty ∧ g.all isDigitChar)

/-- A word-boundary-delimited occurrence of `m` inside `name`: the
character before `m` (if any) and the character after it (if any) are
non-word characters. -/
def BoundedOccurrence (name m : List Char) : Prop :=
  ∃ pre post, name = pre ++ m ++ post ∧ isWordOpt pre.getLast? = false ∧
    boundaryEnd post = true

/-- Join groups with `:` separators (the inverse of `splitColon`). -/
def joinColon : List (List Char) → List Char
  | [] => []
  | [g] => g
  | g :: g2 :: gs => g ++ ':' :: joinColon (g2 :: gs)

/-- Modelled from claim C6's wording: the triangle contribution of one
primitive is 0 whenever the `mode` field is present (of any type) and not
the number 4; otherwise the indices accessor's count, else the POSITION
accessor's count, contributes `floor(count / 3)` (the count is read the
same way as the source reads it). -/
def specPrimTriangles (accessors : List Json) (prim : Json) : Int :=
  let modeOk : Bool := match prim.getField "mode" with
    | none => true
    | some m => m = .num 4
  if ¬ modeOk then 0
  else
    match prim.getField "indices" with
    | some (.num idx) =>
      match accessorCountAt accessors idx with
      | some c => if ratPosB c then ratFloorDiv3 c else 0
      | none => 0
    | _ =>
      match (prim.getField "attributes").bind (fun a => a.getField "POSITION") with
      | some (.num pidx) =>
        match accessorCountAt accessors pidx with
        | some c => if ratPosB c then ratFloorDiv3 c else 0
        | none => 0
      | _ => 0

/-- Modelled from claim C6's wording, lifted to a whole parsed GLB JSON:
the sum over all mesh primitives of the claim's per-primitive triangle
contribution (meshes whose `primitives` field would throw contribute
nothing; the comparison below only uses this on values where no mesh
throws). -/
def specTriangleSum (gltf : Json) : Int :=
  ((arrOrEmpty (gltf.getField "meshes")).map (fun mesh =>
    (match meshPrimitives mesh with
      | .ok ps => ps
      | .error _ => []).map
      (specPrimTriangles (arrOrEmpty (gltf.getField "accessors"))))).flatten.sum

/-- Parsed JSON value of `glbTwoTriangles` below. -/
def gltfTwoTriangles : Json :=
  .obj (.cons "accessors" (.arr (.cons (.obj (.cons "count" (.num 6) .nil)) .nil))
    (.cons "meshes" (.arr (.cons (.obj (.cons "primitives"
        (.arr (.cons (.obj (.cons "indices" (.num 0) .nil)) .nil)) .nil)) .nil))
      (.cons "nodes" (.arr .nil) .nil)))

/-- Concrete 21-byte buffer: valid header (declared length 21 equals the
buffer length), one zero-payload JSON chunk occupying bytes 12-19, and one
trailing byte that the chunk walk never consumes. -/
def cexC1trailing : List Nat :=
  [0x67, 0x6c, 0x54, 0x46, 2, 0, 0, 0, 21, 0, 0, 0,
   0, 0, 0, 0, 0x4a, 0x53, 0x4f, 0x4e, 0]

/-- Minimal 20-byte GLB: header plus one zero-payload JSON chunk, chunks
exactly covering the buffer. -/
def glbMinimal : List Nat :=
  [0x67, 0x6c, 0x54, 0x46, 2, 0, 0, 0, 20, 0, 0, 0,
   0, 0, 0, 0, 0x4a, 0x53, 0x4f, 0x4e]

/-- The parse result of `glbMinimal`: version 2 and one zero-payload JSON
chunk whose raw bytes are its 8-byte header. -/
def glbMinimalParsed : ParsedGlb :=
  ⟨2, [⟨0x4e4f534a, [], [0, 0, 0, 0, 0x4a, 0x53, 0x4f, 0x4e]⟩]⟩

/-- Concrete well-formed GLB with a `\x7b"asset":\x7b"version":"2.0"\x7d\x7d` JSON
chunk. -/
def glbAssetOnly : List Nat :=
  mkGlbFromJsonText "\x7b\"asset\":\x7b\"version\":\"2.0\"\x7d\x7d"

/-- Concrete plain-object extras payload `\x7b"a":1\x7d`. -/
def extrasExample : Json := .obj (.cons "a" (.num 1) .nil)

/-- The buffer `injectAssetExtrasIntoGlb` returns on `glbAssetOnly` with
`extrasExample`. -/
def injectExampleOut : List Nat :=
  match injectAssetExtrasIntoGlb glbAssetOnly extrasExample with
  | .ok out => out
  | .error _ => []

/-- Concrete GLB whose JSON chunk is the single number `3` (parses, not an
object). -/
def glbNumberRoot : List Nat := mkGlbFromJsonText "3"

/-- Concrete GLB with a six-index TRIANGLES primitive (the spec's
two-triangle example). -/
def glbTwoTriangles : List Nat :=
  mkGlbFromJsonText
    "\x7b\"accessors\":[\x7b\"count\":6\x7d],\"meshes\":[\x7b\"primitives\":[\x7b\"indices\":0\x7d]\x7d],\"nodes\":[]\x7d"

/-- Concrete GLB whose only primitive carries the string `"1"` as `mode`. -/
def glbModeString : List Nat :=
  mkGlbFromJsonText
    "\x7b\"accessors\":[\x7b\"count\":6\x7d],\"meshes\":[\x7b\"primitives\":[\x7b\"indices\":0,\"mode\":\"1\"\x7d]\x7d]\x7d"

/-- Concrete GLB producing a 5,000,001-triangle summary (above the default
threshold). -/
def glbExploded : List Nat :=
  mkGlbFromJsonText
    "\x7b\"accessors\":[\x7b\"count\":15000003\x7d],\"meshes\":[\x7b\"primitives\":[\x7b\"indices\":0\x7d]\x7d]\x7d"

/-- Concrete GLB producing a 10-triangle summary. -/
def glbSafe : List Nat :=
  mkGlbFromJsonText
    "\x7b\"accessors\":[\x7b\"count\":30\x7d],\"meshes\":[\x7b\"primitives\":[\x7b\"indices\":0\x7d]\x7d]\x7d"

/-- Per-attempt kernel output: an exploded first attempt, then a safe
result (the spec's retry example). -/
def writeGlbRetryExample : Nat → List Nat :=
  fun i => if i = 0 then glbExploded else glbSafe

/-- Per-attempt stats matching `writeGlbRetryExample`. -/
def statsRetryExample : Nat → GlbGeometryStats :=
  fun i => if i = 0 then ⟨5000001, 1, 0, 1, 0, 0⟩ else ⟨10, 1, 0, 1, 0, 0⟩

/-- Concrete GLB with two named nodes carrying OCAF entries `0:1` and
`0:2`. -/
def glbNamedNodes : List Nat :=
  mkGlbFromJsonText
    "\x7b\"nodes\":[\x7b\"name\":\"Bolt [0:1]\",\"mesh\":0\x7d,\x7b\"name\":\"Nut [0:2]\"\x7d]\x7d"

/-- Raw node resolving to entry `0:1`. -/
def rawNodeA : RawAssemblyNode := ⟨"na", "A", "p1", none, none, some "0:1"⟩

/-- Second raw node sharing entry `0:1` (forces a duplicate index). -/
def rawNodeB : RawAssemblyNode := ⟨"nb", "B", "p2", none, none, some "0:1"⟩

/-- Raw node with an entry `9:9` that no glTF node carries. -/
def rawNodeC : RawAssemblyNode := ⟨"nc", "C", "p3", none, none, some "9:9"⟩

/-- Raw node resolving to entry `0:2`. -/
def rawNodeD : RawAssemblyNode := ⟨"nd", "D", "p4", none, none, some "0:2"⟩

theorem jsMul_eq (a b : ℚ) : jsMul a b = a * b := by
  rw [jsMul, Rat.mkRat_eq_div]
  push_cast
  rw [← div_mul_div_comm, Rat.num_div_den, Rat.num_div_den]

theorem jsMin_eq (a b : ℚ) : jsMin a b = min a b := by
  rw [jsMin, min_def]
  by_cases h : a ≤ b
  · rw [if_pos (Rat.le_def.mp h), if_pos h]
  · rw [if_neg (fun hc => h (Rat.le_def.mpr hc)), if_neg h]

theorem ratPosB_iff (q : ℚ) : ratPosB q = true ↔ 0 < q := by
  simp only [ratPosB, decide_eq_true_eq]
  exact Rat.num_pos

theorem ratFloorDiv3_eq (q : ℚ) : ratFloorDiv3 q = ⌊q / 3⌋ := by
  have hden : ((q.den : ℚ)) ≠ 0 := Nat.cast_ne_zero.mpr q.den_nz
  have key : q / 3 = ((q.num : ℚ) / ((3 * q.den : ℕ) : ℚ)) := by
    conv_lhs => rw [← Rat.num_div_den q]
    push_cast
    rw [div_div, mul_comm]
  rw [ratFloorDiv3, key, Rat.floor_intCast_div_natCast,
    Int.fdiv_eq_ediv _ (by positivity)]
  push_cast
  rfl

/-- C5: for every base input (linear deflection `L`, angular deflection
`A`) and attempt index `i`, `getTriangulationForAttempt` returns linear
deflection `L` and angular deflection `A` at `i = 0`, `2·L` and
`min(1.0, 1.4·A)` at `i = 1`, and `4·L` and `min(1.2, 1.8·A)` at every
`i ≥ 2`, always computed from the original base values; the returned
record always has `relative = false`; and for `L = 1`, `A = 0.5` the three
schedules are `(1, 0.5)`, `(2, 0.7)` and `(4, 0.9)`. -/
theorem scheduleForAttempt_spec (L A : ℚ) (p : Option Bool) :
    getTriangulationForAttempt ⟨L, A, p⟩ 0 = ⟨L, A, false, p⟩ ∧
    getTriangulationForAttempt ⟨L, A, p⟩ 1 =
      ⟨2 * L, min 1 ((14 / 10) * A), false, p⟩ ∧
    (∀ i, 2 ≤ i → getTriangulationForAttempt ⟨L, A, p⟩ i =
      ⟨4 * L, min (12 / 10) ((18 / 10) * A), false, p⟩) ∧
    getTriangulationForAttempt ⟨1, 1 / 2, p⟩ 0 = ⟨1, 1 / 2, false, p⟩ ∧
    getTriangulationForAttempt ⟨1, 1 / 2, p⟩ 1 = ⟨2, 7 / 10, false, p⟩ ∧
    getTriangulationForAttempt ⟨1, 1 / 2, p⟩ 2 = ⟨4, 9 / 10, false, p⟩ := by
  have h14 : (mkRat 14 10 : ℚ) = 14 / 10 := by rw [Rat.mkRat_eq_div]; norm_num
  have h18 : (mkRat 18 10 : ℚ) = 18 / 10 := by rw [Rat.mkRat_eq_div]; norm_num
  have h12 : (mkRat 12 10 : ℚ) = 12 / 10 := by rw [Rat.mkRat_eq_div]; norm_num
  have gen1 : ∀ L' A' : ℚ, getTriangulationForAttempt ⟨L', A', p⟩ 1 =
      ⟨2 * L', min 1 ((14 / 10) * A'), false, p⟩ := by
    intro L' A'
    simp only [getTriangulationForAttempt, jsMul_eq, jsMin_eq, h14]
    norm_num [mul_comm]
  have gen2 : ∀ L' A' : ℚ, ∀ i, 2 ≤ i → getTriangulationForAttempt ⟨L', A', p⟩ i =
      ⟨4 * L', min (12 / 10) ((18 / 10) * A'), false, p⟩ := by
    intro L' A' i hi
    have h0 : i ≠ 0 := by omega
    have h1 : i ≠ 1 := by omega
    simp only [getTriangulationForAttempt, h0, h1, if_false, jsMul_eq, jsMin_eq, h18, h12]
    norm_num [mul_comm]
  refine ⟨rfl, gen1 L A, gen2 L A, rfl, ?_, ?_⟩
  · rw [gen1 1 (1 / 2)]
    norm_num
  · rw [gen2 1 (1 / 2) 2 (by norm_num)]
    norm_num

/-- Witness for C5: instantiating the `i ≥ 2` clause at base `(1, 0.5)`
and attempt 5 yields the capped coarsest schedule. -/
theorem scheduleForAttempt_spec_witness :
    getTriangulationForAttempt ⟨1, 1 / 2, none⟩ 5 =
      ⟨4 * 1, min (12 / 10) ((18 / 10) * (1 / 2)), false, none⟩ :=
  (scheduleForAttempt_spec 1 (1 / 2) none).2.2.1 5 (by decide)

/-- Counterexample to C9 as stated: on a valid GLB and the non-object
extras payload `[]`, `injectAssetExtrasIntoGlb` throws a plain `Error`
(name `Error`), not a `ValidationError` — the `ValidationError` class of
`errors.ts` is never thrown here. -/
theorem injectExtras_not_validationError_cex :
    injectAssetExtrasIntoGlb glbAssetOnly (.arr .nil) =
      .error ⟨"Error", "Invalid extras payload: expected an object"⟩ ∧
    ("Error" : String) ≠ "ValidationError" := by
  constructor
  · decide
  · decide

/-- C9 (amended): for every GLB buffer and every extras argument that is
not a plain object, `injectAssetExtrasIntoGlb` rejects it by throwing an
error — a plain `Error` whose message is `Invalid extras payload: expected
an object`, not the `ValidationError` class — before reading the GLB
buffer at all (the result does not depend on the buffer). -/
theorem injectExtras_rejects_nonObject (glb : List Nat) (extras : Json)
    (h : isPlainObject extras = false) :
    injectAssetExtrasIntoGlb glb extras =
      .error ⟨"Error", "Invalid extras payload: expected an object"⟩ := by
  rw [injectAssetExtrasIntoGlb, h]
  rfl

/-- Witness for C9 (amended) at `extras = null` on the concrete asset-only
GLB. -/
theorem injectExtras_rejects_nonObject_witness :
    injectAssetExtrasIntoGlb glbAssetOnly .null =
      .error ⟨"Error", "Invalid extras payload: expected an object"⟩ :=
  injectExtras_rejects_nonObject glbAssetOnly .null (by decide)

theorem prettyNameStep_mem (overrides : List (String × String)) (node : Json)
    (e v : String) (h : (e, v) ∈ prettyNameStep overrides node) :
    (e, v) ∈ overrides ∨ (v ≠ e ∧ v ≠ "") := by
  rw [prettyNameStep] at h
  split at h
  · split at h
    · exact Or.inl h
    · split at h
      · exact Or.inl h
      · split at h
        · exact Or.inl h
        · simp only [] at h
          split at h
          · rcases List.mem_append.mp h with hm | hm
            · exact Or.inl hm
            · rcases List.mem_singleton.mp hm with hm2
              rename_i entry _ hcond
              rcases Prod.mk.injEq .. ▸ hm2 with ⟨he, hv⟩
              subst he
              subst hv
              exact Or.inr ⟨hcond.2, hcond.1⟩
          · exact Or.inl h
  · exact Or.inl h

theorem prettyNameFold_inv (nodes : List Json) :
    ∀ acc, (∀ e v, (e, v) ∈ acc → v ≠ e ∧ v ≠ "") →
      ∀ e v, (e, v) ∈ nodes.foldl prettyNameStep acc → v ≠ e ∧ v ≠ "" := by
  induction nodes with
  | nil => intro acc hacc e v h; exact hacc e v h
  | cons n ns ih =>
    intro acc hacc e v h
    refine ih (prettyNameStep acc n) ?_ e v h
    intro e2 v2 h2
    rcases prettyNameStep_mem acc n e2 v2 h2 with hm | hp
    · exact hacc e2 v2 hm
    · exact hp

/-- C10: for every GLB, the pretty-name override map built from glTF node
names never maps an identifier to itself and never records an empty name —
an override for identifier `e` is recorded only when the cleaned display
name is non-empty and differs from `e`, so a node whose name cleans down
to just its CAD identifier contributes no override (downstream,
`buildMappedNodeMap` then falls back to the raw stored name). -/
theorem prettyNameOverrides_never_identity (glb : List Nat)
    (m : List (String × String))
    (h : buildPrettyNameOverridesFromGlb glb = .ok m) :
    ∀ e v, (e, v) ∈ m → v ≠ e ∧ v ≠ "" := by
  rw [buildPrettyNameOverridesFromGlb] at h
  split at h
  · exact absurd h (by simp)
  · rename_i gltf heq
    rcases Except.ok.injEq .. ▸ h with hm
    subst hm
    exact prettyNameFold_inv _ [] (by intro e v hv; cases hv) 

set_option maxRecDepth 80000 in
/-- Witness for C10: on the concrete two-node GLB the override built for
`0:1` is `Bolt`, which differs from the identifier and is non-empty. -/
theorem prettyNameOverrides_never_identity_witness :
    ("Bolt" : String) ≠ "0:1" ∧ ("Bolt" : String) ≠ "" :=
  prettyNameOverrides_never_identity glbNamedNodes
    [("0:1", "Bolt"), ("0:2", "Nut")] (by decide) "0:1" "Bolt" (by decide)

/-- Counterexample to C3 as stated: `summarizeGlbGeometry` does throw — on
the empty buffer it propagates `parseGlbJson`'s `Invalid GLB: truncated
header` error instead of returning a zero-count record. -/
theorem summarize_throws_cex :
    summarizeGlbGeometry [] = .error (plainError "Invalid GLB: truncated header") := by
  decide

theorem gltfPrimitives_ok (meshes : List Json)
    (h : ∀ mesh ∈ meshes, ∃ ps, meshPrimitives mesh = .ok ps) :
    ∃ qs, gltfPrimitives meshes = .ok qs := by
  induction meshes with
  | nil => exact ⟨[], rfl⟩
  | cons m ms ih =>
    rcases h m (List.mem_cons_self m ms) with ⟨ps, hps⟩
    rcases ih (fun mesh hm => h mesh (List.mem_cons_of_mem m hm)) with ⟨qs, hqs⟩
    exact ⟨ps ++ qs, by rw [gltfPrimitives, hps, hqs]⟩

/-- C3 (amended): `summarizeGlbGeometry` throws exactly where its
ingredients throw, and degrades to zero counts only at the JSON level.
Concretely: (1) whenever `parseGlbJson` rejects the buffer (wrong magic,
truncated header, truncated chunk, no JSON chunk, JSON that does not
parse), `summarizeGlbGeometry` propagates that error rather than
returning zeros; (2) whenever the JSON chunk parses and every mesh's
`primitives` field is absent, null or an array, `summarizeGlbGeometry`
returns a stats record (no throw), whose mesh and node counts are the
lengths of the `meshes`/`nodes` arrays, with missing or non-array fields
degrading to empty; (3) in particular a parsed JSON value that is not an
object yields the all-zero record. -/
theorem summarize_total_amended :
    (∀ glb e, parseGlbJson glb = .error e →
      summarizeGlbGeometry glb = .error (glbParseJsError e)) ∧
    (∀ glb gltf, parseGlbJson glb = .ok gltf →
      (∀ mesh ∈ arrOrEmpty (gltf.getField "meshes"),
        ∃ ps, meshPrimitives mesh = .ok ps) →
      ∃ s, summarizeGlbGeometry glb = .ok s ∧
        s.meshCount = (arrOrEmpty (gltf.getField "meshes")).length ∧
        s.nodeCount = (arrOrEmpty (gltf.getField "nodes")).length) ∧
    (∀ glb gltf, parseGlbJson glb = .ok gltf → isPlainObject gltf = false →
      summarizeGlbGeometry glb = .ok ⟨0, 0, 0, 0, 0, 0⟩) := by
  refine ⟨?_, ?_, ?_⟩
  · intro glb e h
    rw [summarizeGlbGeometry, h]
  · intro glb gltf h hwf
    rcases gltfPrimitives_ok _ hwf with ⟨qs, hqs⟩
    refine ⟨⟨(qs.map (primTriangles (arrOrEmpty (gltf.getField "accessors")))).sum,
      (arrOrEmpty (gltf.getField "meshes")).length,
      (arrOrEmpty (gltf.getField "nodes")).length, qs.length,
      ((arrOrEmpty (gltf.getField "nodes")).filter nodeHasMesh).length,
      (qs.filter primHasPosition).length⟩, ?_, rfl, rfl⟩
    simp only [summarizeGlbGeometry, h, summarizeGltf, hqs]
  · intro glb gltf h hobj
    rw [summarizeGlbGeometry, h]
    cases gltf with
    | obj fs => exact absurd hobj (by rw [isPlainObject]; simp)
    | null => rfl
    | bool b => rfl
    | num q => rfl
    | str s => rfl
    | arr es => rfl

/-- Witness for C3 (amended): the GLB whose JSON chunk is the number `3`
parses to a non-object and summarizes to the all-zero record without
throwing. -/
theorem summarize_total_amended_witness :
    summarizeGlbGeometry glbNumberRoot = .ok ⟨0, 0, 0, 0, 0, 0⟩ :=
  summarize_total_amended.2.2 glbNumberRoot (.num 3) (by decide) (by decide)

set_option maxRecDepth 80000 in
/-- Counterexample to C6 as stated: on a GLB whose only primitive carries
`mode: "1"` (present, not 4, but not a number), the code treats the
non-number mode as TRIANGLES and counts 2 triangles, while the claim's
case analysis (`0 for every primitive whose mode is present and not 4`)
sums to 0. -/
theorem summarize_triangles_mode_cex :
    (summarizeGlbGeometry glbModeString).map (fun s => s.triangles) = .ok 2 ∧
    (parseGlbJson glbModeString).map specTriangleSum = .ok 0 ∧ (2 : Int) ≠ 0 := by
  refine ⟨by decide, by decide, by decide⟩

theorem primTriangles_mode_ok (accessors : List Json) (prim : Json)
    (hm : ∀ m : ℚ, prim.getField "mode" = some (.num m) → m = 4) :
    primTriangles accessors prim =
      (match prim.getField "indices" with
        | some (.num idx) =>
          match accessorCountAt accessors idx with
          | some c => if ratPosB c then ratFloorDiv3 c else 0
          | none => 0
        | _ =>
          match (prim.getField "attributes").bind (fun a => a.getField "POSITION") with
          | some (.num pidx) =>
            match accessorCountAt accessors pidx with
            | some c => if ratPosB c then ratFloorDiv3 c else 0
            | none => 0
          | _ => 0) := by
  rw [primTriangles]
  rcases hmode : prim.getField "mode" with _ | j
  · simp
  · cases j with
    | num m => rcases hm m hmode with rfl; simp
    | null => simp
    | bool b => simp
    | str s => simp
    | arr es => simp
    | obj fs => simp

theorem floorGuard_eq (c : ℚ) (hc : 0 ≤ c) :
    (if ratPosB c then ratFloorDiv3 c else 0) = ⌊c / 3⌋ := by
  by_cases h : 0 < c
  · rw [if_pos ((ratPosB_iff c).mpr h), ratFloorDiv3_eq]
  · have hc0 : c = 0 := le_antisymm (not_lt.mp h) hc
    subst hc0
    rw [if_neg (by simp [ratPosB])]
    norm_num

/-- C6 (amended): for every GLB whose JSON chunk parses and on which
`summarizeGlbGeometry` returns, the triangle count is the sum over all
mesh primitives of the per-primitive contribution, where: a primitive
whose `mode` field is present as a number different from 4 contributes 0;
a primitive whose `mode` is absent, not a number, or equal to 4 and whose
`indices` field is a number contributes `floor(count / 3)` of the indices
accessor when that count is a finite number at least 0; otherwise (no
numeric `indices`) a numeric POSITION attribute contributes
`floor(count / 3)` of the position accessor under the same condition.
(The deviation from the claim as stated: a `mode` present with a
non-number value is treated as TRIANGLES, not as `mode ≠ 4`.) -/
theorem summarize_triangles_amended :
    (∀ glb gltf s, parseGlbJson glb = .ok gltf → summarizeGlbGeometry glb = .ok s →
      ∃ prims, gltfPrimitives (arrOrEmpty (gltf.getField "meshes")) = .ok prims ∧
        s.triangles =
          (prims.map (primTriangles (arrOrEmpty (gltf.getField "accessors")))).sum) ∧
    (∀ accessors prim (m : ℚ), prim.getField "mode" = some (.num m) → m ≠ 4 →
      primTriangles accessors prim = 0) ∧
    (∀ accessors prim, (∀ m : ℚ, prim.getField "mode" = some (.num m) → m = 4) →
      ∀ (i c : ℚ), prim.getField "indices" = some (.num i) →
        accessorCountAt accessors i = some c → 0 ≤ c →
        primTriangles accessors prim = ⌊c / 3⌋) ∧
    (∀ accessors prim, (∀ m : ℚ, prim.getField "mode" = some (.num m) → m = 4) →
      (∀ i : ℚ, prim.getField "indices" ≠ some (.num i)) →
      ∀ (p c : ℚ),
        (prim.getField "attributes").bind (fun a => a.getField "POSITION") =
          some (.num p) →
        accessorCountAt accessors p = some c → 0 ≤ c →
        primTriangles accessors prim = ⌊c / 3⌋) := by
  refine ⟨?_, ?_, ?_, ?_⟩
  · intro glb gltf s hp hs
    rw [summarizeGlbGeometry, hp] at hs
    rcases hg : gltfPrimitives (arrOrEmpty (gltf.getField "meshes")) with e | prims
    · simp only [summarizeGltf, hg] at hs
      exact absurd hs (by simp)
    · simp only [summarizeGltf, hg] at hs
      refine ⟨prims, rfl, ?_⟩
      injection hs with h
      subst h
      rfl
  · intro accessors prim m hmode hne
    rw [primTriangles, hmode]
    simp [hne]
  · intro accessors prim hm i c hidx hcount hc
    rw [primTriangles_mode_ok accessors prim hm, hidx]
    dsimp only
    rw [hcount]
    exact floorGuard_eq c hc
  · intro accessors prim hm hnotidx p c hpos hcount hc
    rw [primTriangles_mode_ok accessors prim hm]
    have : (match prim.getField "indices" with
        | some (.num idx) =>
          match accessorCountAt accessors idx with
          | some c => if ratPosB c then ratFloorDiv3 c else 0
          | none => 0
        | _ =>
          match (prim.getField "attributes").bind (fun a => a.getField "POSITION") with
          | some (.num pidx) =>
            match accessorCountAt accessors pidx with
            | some c => if ratPosB c then ratFloorDiv3 c else 0
            | none => 0
          | _ => 0) =
        (match (prim.getField "attributes").bind (fun a => a.getField "POSITION") with
          | some (.num pidx) =>
            match accessorCountAt accessors pidx with
            | some c => if ratPosB c then ratFloorDiv3 c else 0
            | none => 0
          | _ => 0) := by
      rcases hidx : prim.getField "indices" with _ | j
      · rfl
      · cases j with
        | num i => exact absurd hidx (hnotidx i)
        | null => rfl
        | bool b => rfl
        | str s => rfl
        | arr es => rfl
        | obj fs => rfl
    rw [this, hpos]
    dsimp only
    rw [hcount]
    exact floorGuard_eq c hc

set_option maxRecDepth 80000 in
/-- Witness for C6 (amended): the two-triangle GLB parses to
`gltfTwoTriangles`, summarizes successfully, and its triangle count 2 is
the primitive-wise sum. -/
theorem summarize_triangles_amended_witness :
    ∃ prims, gltfPrimitives (arrOrEmpty (gltfTwoTriangles.getField "meshes")) = .ok prims ∧
      (⟨2, 1, 0, 1, 0, 0⟩ : GlbGeometryStats).triangles =
        (prims.map (primTriangles (arrOrEmpty (gltfTwoTriangles.getField "accessors")))).sum :=
  summarize_triangles_amended.1 glbTwoTriangles gltfTwoTriangles ⟨2, 1, 0, 1, 0, 0⟩
    (by decide) (by decide)

theorem convertGo_firstGood (writeGlb : Nat → List Nat)
    (base : TriangulationAttemptInput) (A : Nat)
    (thr : TriangleExplosionThresholds) (stats : Nat → GlbGeometryStats)
    (hstats : ∀ i, i < A → summarizeGlbGeometry (writeGlb i) = .ok (stats i)) :
    ∀ k attempt warns, attempt + k < A →
      (∀ j, attempt ≤ j → j < attempt + k → isTriangleExplosion (stats j) thr = true) →
      isTriangleExplosion (stats (attempt + k)) thr = false →
      convertGo writeGlb base A thr (A - attempt) attempt warns =
        .ok ⟨writeGlb (attempt + k), stats (attempt + k),
          getTriangulationForAttempt base (attempt + k),
          warns ++ (List.range' attempt k).map
            (fun j => retryWarning j thr (stats j) (getTriangulationForAttempt base j))⟩ := by
  intro k
  induction k with
  | zero =>
    intro attempt warns hlt hall hgood
    have hf : A - attempt = (A - (attempt + 1)) + 1 := by omega
    rw [hf, convertGo]
    simp only [hstats attempt (by omega)]
    rw [Nat.add_zero] at hgood
    simp [hgood]
  | succ k ih =>
    intro attempt warns hlt hall hgood
    have hf : A - attempt = (A - (attempt + 1)) + 1 := by omega
    rw [hf, convertGo]
    simp only [hstats attempt (by omega)]
    have hexp : isTriangleExplosion (stats attempt) thr = true :=
      hall attempt (Nat.le_refl attempt) (by omega)
    have hlt2 : attempt < A - 1 := by omega
    simp only [hexp]
    rw [if_neg (by simp), if_pos hlt2]
    have := ih (attempt + 1) (warns ++ [retryWarning attempt thr (stats attempt)
      (getTriangulationForAttempt base attempt)]) (by omega)
      (fun j hj1 hj2 => hall j (by omega) (by omega)) (by
        have : attempt + 1 + k = attempt + (k + 1) := by omega
        rw [this]
        exact hgood)
    rw [this]
    have harr : attempt + 1 + k = attempt + (k + 1) := by omega
    rw [harr]
    rw [List.range'_succ, List.map_cons, List.append_assoc, List.singleton_append]

theorem convertGo_allExploded (writeGlb : Nat → List Nat)
    (base : TriangulationAttemptInput) (A : Nat)
    (thr : TriangleExplosionThresholds) (stats : Nat → GlbGeometryStats)
    (hstats : ∀ i, i < A → summarizeGlbGeometry (writeGlb i) = .ok (stats i)) :
    ∀ k attempt warns, attempt + k + 1 = A →
      (∀ j, attempt ≤ j → j < A → isTriangleExplosion (stats j) thr = true) →
      convertGo writeGlb base A thr (A - attempt) attempt warns =
        .ok ⟨writeGlb (A - 1), stats (A - 1),
          getTriangulationForAttempt base (A - 1),
          warns ++ (List.range' attempt k).map
            (fun j => retryWarning j thr (stats j) (getTriangulationForAttempt base j)) ++
            [unresolvedWarning (A - 1) thr (stats (A - 1))
              (getTriangulationForAttempt base (A - 1))]⟩ := by
  intro k
  induction k with
  | zero =>
    intro attempt warns hA hall
    have hf : A - attempt = (A - (attempt + 1)) + 1 := by omega
    rw [hf, convertGo]
    simp only [hstats attempt (by omega)]
    have hexp : isTriangleExplosion (stats attempt) thr = true :=
      hall attempt (Nat.le_refl attempt) (by omega)
    have hlast : attempt = A - 1 := by omega
    simp only [hexp]
    rw [if_neg (by simp), if_neg (by omega)]
    rw [hlast]
    simp
  | succ k ih =>
    intro attempt warns hA hall
    have hf : A - attempt = (A - (attempt + 1)) + 1 := by omega
    rw [hf, convertGo]
    simp only [hstats attempt (by omega)]
    have hexp : isTriangleExplosion (stats attempt) thr = true :=
      hall attempt (Nat.le_refl attempt) (by omega)
    simp only [hexp]
    rw [if_neg (by simp), if_pos (by omega)]
    have := ih (attempt + 1) (warns ++ [retryWarning attempt thr (stats attempt)
      (getTriangulationForAttempt base attempt)]) (by omega)
      (fun j hj1 hj2 => hall j (by omega) hj2)
    rw [this]
    simp [List.range'_succ, List.append_assoc]

/-- C4: with `A = max(1, attempts)` tries over the kernel's
triangulate+write operations (modelled as the supplied per-attempt
`writeGlb` function) and the Statistics Extractor measuring each attempt,
the retry loop stops at the first attempt whose statistics are not
exploded, emitting exactly one `mesh/triangle-explosion-retry` warning for
each exploded attempt before it (each such attempt is not the last); and
when every executed attempt is exploded it emits the retry warnings for
attempts `0..A-2`, exactly one `mesh/triangle-explosion-unresolved`
warning for the final attempt, and returns the final attempt's GLB and
statistics rather than throwing. -/
theorem convertWithRetries_spec (writeGlb : Nat → List Nat)
    (options : GlbConversionOptions) (stats : Nat → GlbGeometryStats)
    (A : Nat) (thr : TriangleExplosionThresholds)
    (base : TriangulationAttemptInput) (warns0 : List ConversionWarning)
    (hA : A = max 1 (options.attempts.getD 3))
    (hthr : thr = options.triangleExplosionThresholds.getD TRIANGLE_EXPLOSION_THRESHOLDS)
    (hbase : base = ⟨(options.triangulate.getD {}).linearDeflection.getD 1,
      (options.triangulate.getD {}).angularDeflection.getD (mkRat 1 2),
      (options.triangulate.getD {}).parallel⟩)
    (hwarns0 : warns0 =
      if (options.triangulate.getD {}).relative = some true then
        [⟨"mesh/relative-forced-false",
          "Relative deflection was disabled to ensure absolute tessellation.",
          .relativeForced (options.triangulate.getD {})
            ⟨(options.triangulate.getD {}).linearDeflection,
              (options.triangulate.getD {}).angularDeflection, some false,
              (options.triangulate.getD {}).parallel⟩⟩]
      else [])
    (hstats : ∀ i, i < A → summarizeGlbGeometry (writeGlb i) = .ok (stats i)) :
    (∀ i0, i0 < A → (∀ j, j < i0 → isTriangleExplosion (stats j) thr = true) →
      isTriangleExplosion (stats i0) thr = false →
      convertDocumentToGlbWithRetries writeGlb options =
        .ok ⟨writeGlb i0, stats i0, getTriangulationForAttempt base i0,
          warns0 ++ (List.range i0).map
            (fun j => retryWarning j thr (stats j) (getTriangulationForAttempt base j))⟩) ∧
    ((∀ i, i < A → isTriangleExplosion (stats i) thr = true) →
      convertDocumentToGlbWithRetries writeGlb options =
        .ok ⟨writeGlb (A - 1), stats (A - 1), getTriangulationForAttempt base (A - 1),
          warns0 ++ (List.range (A - 1)).map
            (fun j => retryWarning j thr (stats j) (getTriangulationForAttempt base j)) ++
            [unresolvedWarning (A - 1) thr (stats (A - 1))
              (getTriangulationForAttempt base (A - 1))]⟩) := by
  have hA1 : 1 ≤ A := hA ▸ Nat.le_max_left 1 _
  have hunfold : convertDocumentToGlbWithRetries writeGlb options =
      convertGo writeGlb base A thr A 0 warns0 := by
    subst hA hthr hbase hwarns0
    rfl
  constructor
  · intro i0 h1 h2 h3
    rw [hunfold]
    have := convertGo_firstGood writeGlb base A thr stats hstats i0 0 warns0
      (by omega) (fun j hj1 hj2 => h2 j (by omega)) (by simpa using h3)
    rw [Nat.sub_zero] at this
    rw [this]
    simp [List.range_eq_range']
  · intro hall
    rw [hunfold]
    have := convertGo_allExploded writeGlb base A thr stats hstats (A - 1) 0 warns0
      (by omega) (fun j hj1 hj2 => hall j hj2)
    rw [Nat.sub_zero] at this
    rw [this]
    simp [List.range_eq_range']

set_option maxRecDepth 80000 in
/-- Witness for C4 on the spec's example: an exploded first attempt
(5,000,001 triangles) followed by a 10-triangle attempt, default options,
yields exactly one retry warning and the second attempt's GLB. -/
theorem convertWithRetries_spec_witness :
    convertDocumentToGlbWithRetries writeGlbRetryExample {} =
      .ok ⟨writeGlbRetryExample 1, statsRetryExample 1,
        getTriangulationForAttempt ⟨1, mkRat 1 2, none⟩ 1,
        [] ++ (List.range 1).map
          (fun j => retryWarning j TRIANGLE_EXPLOSION_THRESHOLDS (statsRetryExample j)
            (getTriangulationForAttempt ⟨1, mkRat 1 2, none⟩ j))⟩ :=
  (convertWithRetries_spec writeGlbRetryExample {} statsRetryExample 3
    TRIANGLE_EXPLOSION_THRESHOLDS ⟨1, mkRat 1 2, none⟩ []
    rfl rfl rfl rfl (by decide)).1 1 (by decide) (by decide) (by decide)

theorem buildMappedGo_ok_resolves (idx : List (String × GltfNodeIndex))
    (pretty : List (String × String)) :
    ∀ entries used acc ns, buildMappedGo idx pretty entries used acc = .ok ns →
      (∀ p ∈ entries, ∃ m, p.2.labelEntry.bind (fun le => idx.lookup le) = some m ∧
        m.gltfNodeIndex ∉ used) ∧
      List.Pairwise
        (fun p q => ∀ n, resolveIdx idx p = some n → resolveIdx idx q ≠ some n)
        entries := by
  intro entries
  induction entries with
  | nil =>
    intro used acc ns _
    exact ⟨fun p hp => absurd hp (List.not_mem_nil p), List.Pairwise.nil⟩
  | cons e rest ih =>
    intro used acc ns h
    rcases e with ⟨nodeId, node⟩
    rcases hres : node.labelEntry.bind (fun le => idx.lookup le) with _ | m
    · rw [buildMappedGo, hres] at h
      dsimp only at h
      exact absurd h (by simp)
    · rw [buildMappedGo, hres] at h
      dsimp only at h
      by_cases hm : m.gltfNodeIndex ∈ used
      · rw [if_pos hm] at h
        exact absurd h (by simp)
      · rw [if_neg hm] at h
        rcases ih _ _ _ h with ⟨hall, hpw⟩
        constructor
        · intro p hp
          rcases List.mem_cons.mp hp with rfl | hp2
          · exact ⟨m, hres, hm⟩
          · rcases hall p hp2 with ⟨m2, hm2, hnotin⟩
            exact ⟨m2, hm2, fun hc => hnotin (List.mem_cons_of_mem _ hc)⟩
        · refine List.Pairwise.cons ?_ hpw
          intro q hq n hn hqn
          rcases hall q hq with ⟨mq, hmq, hmqnotin⟩
          have h1 : n = m.gltfNodeIndex := by
            rw [resolveIdx] at hn
            simp only [hres] at hn
            exact (Option.some.injEq .. ▸ hn).symm
          have h2 : n = mq.gltfNodeIndex := by
            rw [resolveIdx] at hqn
            simp only [hmq] at hqn
            exact (Option.some.injEq .. ▸ hqn).symm
          exact hmqnotin (by rw [← h2, h1]; exact List.mem_cons_self _ _)

theorem buildMappedGo_ok_pairwise (idx : List (String × GltfNodeIndex))
    (pretty : List (String × String)) :
    ∀ entries used acc ns,
      (∀ p ∈ acc, p.2.gltfNodeIndex ∈ used) →
      List.Pairwise (fun p q => p.2.gltfNodeIndex ≠ q.2.gltfNodeIndex) acc →
      buildMappedGo idx pretty entries used acc = .ok ns →
      List.Pairwise (fun p q => p.2.gltfNodeIndex ≠ q.2.gltfNodeIndex) ns := by
  intro entries
  induction entries with
  | nil =>
    intro used acc ns hin hpw h
    rw [buildMappedGo] at h
    injection h with h2
    exact h2 ▸ hpw
  | cons e rest ih =>
    intro used acc ns hin hpw h
    rcases e with ⟨nodeId, node⟩
    rcases hres : node.labelEntry.bind (fun le => idx.lookup le) with _ | m
    · rw [buildMappedGo, hres] at h
      dsimp only at h
      exact absurd h (by simp)
    · rw [buildMappedGo, hres] at h
      dsimp only at h
      by_cases hm : m.gltfNodeIndex ∈ used
      · rw [if_pos hm] at h
        exact absurd h (by simp)
      · rw [if_neg hm] at h
        refine ih _ _ _ ?_ ?_ h
        · intro p hp
          rcases List.mem_append.mp hp with hp2 | hp2
          · exact List.mem_cons_of_mem _ (hin p hp2)
          · rcases List.mem_singleton.mp hp2 with rfl
            exact List.mem_cons_self _ _
        · rw [List.pairwise_append]
          refine ⟨hpw, List.pairwise_singleton .. , ?_⟩
          intro p hp q hq
          rcases List.mem_singleton.mp hq with rfl
          intro hc
          have hc2 : p.2.gltfNodeIndex = m.gltfNodeIndex := hc
          exact hm (hc2 ▸ hin p hp)

theorem buildMappedGo_missing (idx : List (String × GltfNodeIndex))
    (pretty : List (String × String)) :
    ∀ entries used acc nid,
      buildMappedGo idx pretty entries used acc = .error (.missingGltfMapping nid) →
      ∃ node, (nid, node) ∈ entries ∧
        node.labelEntry.bind (fun le => idx.lookup le) = none := by
  intro entries
  induction entries with
  | nil =>
    intro used acc nid h
    rw [buildMappedGo] at h
    exact absurd h (by simp)
  | cons e rest ih =>
    intro used acc nid h
    rcases e with ⟨nodeId, node⟩
    rcases hres : node.labelEntry.bind (fun le => idx.lookup le) with _ | m
    · rw [buildMappedGo, hres] at h
      dsimp only at h
      injection h with h2
      rcases MapError.missingGltfMapping.injEq .. ▸ h2 with rfl
      exact ⟨node, List.mem_cons_self _ _, hres⟩
    · rw [buildMappedGo, hres] at h
      dsimp only at h
      by_cases hm : m.gltfNodeIndex ∈ used
      · rw [if_pos hm] at h
        injection h with h2
        exact absurd h2 (by simp)
      · rw [if_neg hm] at h
        rcases ih _ _ _ h with ⟨node2, hmem, hnone⟩
        exact ⟨node2, List.mem_cons_of_mem _ hmem, hnone⟩

theorem buildMappedGo_duplicate (idx : List (String × GltfNodeIndex))
    (pretty : List (String × String)) :
    ∀ entries used acc n,
      buildMappedGo idx pretty entries used acc = .error (.duplicateGltfMapping n) →
      (n ∈ used ∧ ∃ p ∈ entries, resolveIdx idx p = some n) ∨
      (∃ pre q mid p post, entries = pre ++ q :: mid ++ p :: post ∧
        resolveIdx idx q = some n ∧ resolveIdx idx p = some n) := by
  intro entries
  induction entries with
  | nil =>
    intro used acc n h
    rw [buildMappedGo] at h
    exact absurd h (by simp)
  | cons e rest ih =>
    intro used acc n h
    rcases e with ⟨nodeId, node⟩
    rcases hres : node.labelEntry.bind (fun le => idx.lookup le) with _ | m
    · rw [buildMappedGo, hres] at h
      dsimp only at h
      injection h with h2
      exact absurd h2 (by simp)
    · have hresolve : resolveIdx idx (nodeId, node) = some m.gltfNodeIndex := by
        rw [resolveIdx]
        simp [hres]
      rw [buildMappedGo, hres] at h
      dsimp only at h
      by_cases hm : m.gltfNodeIndex ∈ used
      · rw [if_pos hm] at h
        injection h with h2
        rcases MapError.duplicateGltfMapping.injEq .. ▸ h2 with rfl
        exact Or.inl ⟨hm, ⟨(nodeId, node), List.mem_cons_self _ _, hresolve⟩⟩
      · rw [if_neg hm] at h
        rcases ih _ _ _ h with ⟨hn, p, hp, hpres⟩ | ⟨pre, q, mid, p, post, heq, hq, hp⟩
        · rcases List.mem_cons.mp hn with rfl | hn2
          · rcases List.append_of_mem hp with ⟨mid, post, rfl⟩
            exact Or.inr ⟨[], (nodeId, node), mid, p, post, rfl, hresolve, hpres⟩
          · exact Or.inl ⟨hn2, ⟨p, List.mem_cons_of_mem _ hp, hpres⟩⟩
        · refine Or.inr ⟨(nodeId, node) :: pre, q, mid, p, post, ?_, hq, hp⟩
          rw [heq]
          rfl

theorem index_ok_parse (glb : List Nat) (idx : List (String × GltfNodeIndex))
    (h : buildGltfNodeIndexByOcafEntry glb = .ok idx) :
    ∃ gltf, parseGlbJson glb = .ok gltf ∧ idx = buildGltfNodeIndexGltf gltf := by
  rw [buildGltfNodeIndexByOcafEntry] at h
  rcases hparse : parseGlbJson glb with e | gltf
  · rw [hparse] at h
    exact absurd h (by simp)
  · rw [hparse] at h
    injection h with h2
    exact ⟨gltf, rfl, h2.symm⟩

theorem mapped_unfold (raw : RawNodeMap) (glb : List Nat) (gltf : Json)
    (hparse : parseGlbJson glb = .ok gltf) :
    buildMappedNodeMap raw glb =
      (match buildMappedGo (buildGltfNodeIndexGltf gltf)
          (buildPrettyNameOverridesGltf gltf) raw.nodes [] [] with
        | .error e => .error e
        | .ok ns => .ok ⟨raw.roots, ns⟩) := by
  rw [buildMappedNodeMap, buildGltfNodeIndexByOcafEntry, hparse,
    buildPrettyNameOverridesFromGlb, hparse]

set_option maxRecDepth 200000 in
/-- Counterexample to C7 as stated: with raw entries ordered duplicate
before missing (nodes `na`/`nb` share labelEntry `0:1`, node `nc`'s
labelEntry `9:9` resolves to nothing), `buildMappedNodeMap` throws
`DuplicateGltfMapping`, not `MissingGltfMapping`, even though some raw
node's labelEntry has no entry in the Identity Mapper's index. -/
theorem buildMappedNodeMap_order_cex :
    buildMappedNodeMap ⟨["na"], [("na", rawNodeA), ("nb", rawNodeB), ("nc", rawNodeC)]⟩
        glbNamedNodes = .error (.duplicateGltfMapping 0) ∧
    (buildGltfNodeIndexByOcafEntry glbNamedNodes).map
      (fun idx => (rawNodeC.labelEntry.bind (fun le => idx.lookup le)).isNone) =
      .ok true := by
  constructor
  · decide
  · decide

/-- C7 (amended): `buildMappedNodeMap` fails whenever some raw node's
labelEntry has no entry in the Identity Mapper's index, and whenever two
raw nodes resolve to the same glTF node index (in particular when two
nodes share a labelEntry); a `MissingGltfMapping` error names a node id
whose labelEntry is unresolved, and a `DuplicateGltfMapping` error names
an index that two distinct raw entries resolve to; the failing entry is
the first offender in `Object.entries` order, so when an unresolved entry
is preceded by a duplicate the thrown error is `DuplicateGltfMapping`
rather than `MissingGltfMapping`; and on success the resulting map from
CAD node to `gltfNodeIndex` is injective (all recorded indices are
pairwise distinct). -/
theorem buildMappedNodeMap_spec :
    (∀ raw glb m, buildMappedNodeMap raw glb = .ok m →
      List.Pairwise (fun p q => p.2.gltfNodeIndex ≠ q.2.gltfNodeIndex) m.nodes) ∧
    (∀ raw glb idx, buildGltfNodeIndexByOcafEntry glb = .ok idx →
      ∀ p ∈ raw.nodes, p.2.labelEntry.bind (fun le => idx.lookup le) = none →
      ∃ e, buildMappedNodeMap raw glb = .error e) ∧
    (∀ raw glb idx, buildGltfNodeIndexByOcafEntry glb = .ok idx →
      ∀ pre q mid p post, raw.nodes = pre ++ q :: mid ++ p :: post →
      ∀ n, resolveIdx idx q = some n → resolveIdx idx p = some n →
      ∃ e, buildMappedNodeMap raw glb = .error e) ∧
    (∀ raw glb nid, buildMappedNodeMap raw glb = .error (.missingGltfMapping nid) →
      ∃ idx node, buildGltfNodeIndexByOcafEntry glb = .ok idx ∧
        (nid, node) ∈ raw.nodes ∧
        node.labelEntry.bind (fun le => idx.lookup le) = none) ∧
    (∀ raw glb n, buildMappedNodeMap raw glb = .error (.duplicateGltfMapping n) →
      ∃ idx pre q mid p post, buildGltfNodeIndexByOcafEntry glb = .ok idx ∧
        raw.nodes = pre ++ q :: mid ++ p :: post ∧
        resolveIdx idx q = some n ∧ resolveIdx idx p = some n) := by
  have hget : ∀ raw glb gltf ns, parseGlbJson glb = .ok gltf →
      buildMappedNodeMap raw glb = .ok ns →
      buildMappedGo (buildGltfNodeIndexGltf gltf)
        (buildPrettyNameOverridesGltf gltf) raw.nodes [] [] = .ok ns.nodes ∧
      ns.roots = raw.roots := by
    intro raw glb gltf ns hparse h
    rw [mapped_unfold raw glb gltf hparse] at h
    rcases hgo : buildMappedGo (buildGltfNodeIndexGltf gltf)
        (buildPrettyNameOverridesGltf gltf) raw.nodes [] [] with e | ns2
    · rw [hgo] at h
      exact absurd h (by simp)
    · rw [hgo] at h
      injection h with h2
      rw [← h2]
      exact ⟨rfl, rfl⟩
  have hgeterr : ∀ raw glb gltf e, parseGlbJson glb = .ok gltf →
      buildMappedNodeMap raw glb = .error e →
      buildMappedGo (buildGltfNodeIndexGltf gltf)
        (buildPrettyNameOverridesGltf gltf) raw.nodes [] [] = .error e := by
    intro raw glb gltf e hparse h
    rw [mapped_unfold raw glb gltf hparse] at h
    rcases hgo : buildMappedGo (buildGltfNodeIndexGltf gltf)
        (buildPrettyNameOverridesGltf gltf) raw.nodes [] [] with e2 | ns2
    · rw [hgo] at h
      injection h with h2
      rw [h2]
    · rw [hgo] at h
      exact absurd h (by simp)
  refine ⟨?_, ?_, ?_, ?_, ?_⟩
  · intro raw glb m h
    have hparse : ∃ gltf, parseGlbJson glb = .ok gltf := by
      rw [buildMappedNodeMap] at h
      rcases hidx : buildGltfNodeIndexByOcafEntry glb with e | idx
      · rw [hidx] at h
        exact absurd h (by simp)
      · rcases index_ok_parse glb idx hidx with ⟨gltf, hp, _⟩
        exact ⟨gltf, hp⟩
    rcases hparse with ⟨gltf, hparse⟩
    rcases hget raw glb gltf m hparse h with ⟨hgo, _⟩
    exact buildMappedGo_ok_pairwise _ _ raw.nodes [] [] m.nodes
      (fun p hp => absurd hp (List.not_mem_nil p)) List.Pairwise.nil hgo
  · intro raw glb idx hidx p hp hnone
    rcases hres : buildMappedNodeMap raw glb with e | m
    · exact ⟨e, rfl⟩
    · rcases index_ok_parse glb idx hidx with ⟨gltf, hparse, rfl⟩
      rcases hget raw glb gltf m hparse hres with ⟨hgo, _⟩
      rcases (buildMappedGo_ok_resolves _ _ raw.nodes [] [] m.nodes hgo).1 p hp with
        ⟨mm, hmm, _⟩
      rw [hnone] at hmm
      exact absurd hmm (by simp)
  · intro raw glb idx hidx pre q mid p post hdec n hq hp
    rcases hres : buildMappedNodeMap raw glb with e | m
    · exact ⟨e, rfl⟩
    · rcases index_ok_parse glb idx hidx with ⟨gltf, hparse, rfl⟩
      rcases hget raw glb gltf m hparse hres with ⟨hgo, _⟩
      have hpw := (buildMappedGo_ok_resolves _ _ raw.nodes [] [] m.nodes hgo).2
      rw [hdec] at hpw
      have hcross := (List.pairwise_append.mp hpw).2.2
      exact absurd hp
        (hcross q (List.mem_append.mpr (Or.inr (List.mem_cons_self _ _))) p
          (List.mem_cons_self _ _) n hq)
  · intro raw glb nid h
    have hparse : ∃ gltf, parseGlbJson glb = .ok gltf := by
      rw [buildMappedNodeMap] at h
      rcases hidx : buildGltfNodeIndexByOcafEntry glb with e | idx
      · rw [hidx] at h
        injection h with h2
        exact absurd h2 (by simp)
      · rcases index_ok_parse glb idx hidx with ⟨gltf, hp, _⟩
        exact ⟨gltf, hp⟩
    rcases hparse with ⟨gltf, hparse⟩
    have hgo := hgeterr raw glb gltf _ hparse h
    rcases buildMappedGo_missing _ _ raw.nodes [] [] nid hgo with ⟨node, hmem, hnone⟩
    exact ⟨buildGltfNodeIndexGltf gltf, node,
      by rw [buildGltfNodeIndexByOcafEntry, hparse], hmem, hnone⟩
  · intro raw glb n h
    have hparse : ∃ gltf, parseGlbJson glb = .ok gltf := by
      rw [buildMappedNodeMap] at h
      rcases hidx : buildGltfNodeIndexByOcafEntry glb with e | idx
      · rw [hidx] at h
        injection h with h2
        exact absurd h2 (by simp)
      · rcases index_ok_parse glb idx hidx with ⟨gltf, hp, _⟩
        exact ⟨gltf, hp⟩
    rcases hparse with ⟨gltf, hparse⟩
    have hgo := hgeterr raw glb gltf _ hparse h
    rcases buildMappedGo_duplicate _ _ raw.nodes [] [] n hgo with
      ⟨hn, _⟩ | ⟨pre, q, mid, p, post, heq, hq, hp⟩
    · exact absurd hn (List.not_mem_nil n)
    · exact ⟨buildGltfNodeIndexGltf gltf, pre, q, mid, p, post,
        by rw [buildGltfNodeIndexByOcafEntry, hparse], heq, hq, hp⟩

set_option maxRecDepth 80000 in
/-- Witness for C7 (amended): on a two-entry raw node map resolving to
distinct indices 0 and 1, the build succeeds and the recorded indices are
pairwise distinct. -/
theorem buildMappedNodeMap_spec_witness :
    List.Pairwise (fun p q => p.2.gltfNodeIndex ≠ q.2.gltfNodeIndex)
      ([("na", ⟨"na", "Bolt", "p1", none, [], 0, some 0⟩),
        ("nd", ⟨"nd", "Nut", "p4", none, [], 1, none⟩)] :
        List (String × ConvertedNode)) :=
  buildMappedNodeMap_spec.1 ⟨["na"], [("na", rawNodeA), ("nd", rawNodeD)]⟩
    glbNamedNodes
    ⟨["na"], [("na", ⟨"na", "Bolt", "p1", none, [], 0, some 0⟩),
      ("nd", ⟨"nd", "Nut", "p4", none, [], 1, none⟩)]⟩ (by decide)

theorem byteSlice_length (bs : List Nat) (a b : Nat) (h1 : a ≤ b)
    (h2 : b ≤ bs.length) : (byteSlice bs a b).length = b - a := by
  rw [byteSlice, List.length_take, List.length_drop]
  omega

theorem byteSlice_append (bs : List Nat) (a b c : Nat) (hab : a ≤ b) (hbc : b ≤ c) :
    byteSlice bs a b ++ byteSlice bs b c = byteSlice bs a c := by
  rw [byteSlice, byteSlice, byteSlice]
  have hc : c - a = (b - a) + (c - b) := by omega
  have h2 : List.drop (b - a) (List.drop a bs) = List.drop b bs := by
    rw [List.drop_drop]
    congr 1
    omega
  rw [hc, List.take_add, h2]

theorem byteSlice_zero (bs : List Nat) : byteSlice bs 0 bs.length = bs := by
  rw [byteSlice, List.drop_zero, Nat.sub_zero, List.take_length]

theorem byteSlice_four : ∀ (bs : List Nat) (k : Nat), k + 4 ≤ bs.length →
    byteSlice bs k (k + 4) =
      [bs.getD k 0, bs.getD (k + 1) 0, bs.getD (k + 2) 0, bs.getD (k + 3) 0] := by
  intro bs
  induction bs with
  | nil => intro k h; simp at h
  | cons x t ih =>
    intro k h
    cases k with
    | zero =>
      rcases t with _ | ⟨x1, t1⟩
      · simp at h
      rcases t1 with _ | ⟨x2, t2⟩
      · simp at h
      rcases t2 with _ | ⟨x3, t3⟩
      · simp at h
      rfl
    | succ k2 =>
      have ht : k2 + 4 ≤ t.length := by
        rw [List.length_cons] at h
        omega
      have := ih k2 ht
      rw [byteSlice] at this ⊢
      rw [List.drop_succ_cons]
      have hsub : k2 + 1 + 4 - (k2 + 1) = k2 + 4 - k2 := by omega
      rw [hsub]
      rw [this]
      simp [List.getD_cons_succ]

theorem getD_lt_256 (bs : List Nat) (hwf : BytesWF bs) (k : Nat)
    (hk : k < bs.length) : bs.getD k 0 < 256 := by
  rw [List.getD_eq_getElem bs 0 hk]
  exact hwf _ (List.getElem_mem hk)

theorem writeU32_readU32 (bs : List Nat) (hwf : BytesWF bs) (k : Nat)
    (hk : k + 4 ≤ bs.length) : writeU32 (readU32 bs k) = byteSlice bs k (k + 4) := by
  rw [byteSlice_four bs k hk, writeU32, readU32]
  have h0 := getD_lt_256 bs hwf k (by omega)
  have h1 := getD_lt_256 bs hwf (k + 1) (by omega)
  have h2 := getD_lt_256 bs hwf (k + 2) (by omega)
  have h3 := getD_lt_256 bs hwf (k + 3) (by omega)
  have e0 : (bs.getD k 0 + 256 * bs.getD (k + 1) 0 + 65536 * bs.getD (k + 2) 0 +
      16777216 * bs.getD (k + 3) 0) % 256 = bs.getD k 0 := by omega
  have e1 : (bs.getD k 0 + 256 * bs.getD (k + 1) 0 + 65536 * bs.getD (k + 2) 0 +
      16777216 * bs.getD (k + 3) 0) / 256 % 256 = bs.getD (k + 1) 0 := by omega
  have e2 : (bs.getD k 0 + 256 * bs.getD (k + 1) 0 + 65536 * bs.getD (k + 2) 0 +
      16777216 * bs.getD (k + 3) 0) / 65536 % 256 = bs.getD (k + 2) 0 := by omega
  have e3 : (bs.getD k 0 + 256 * bs.getD (k + 1) 0 + 65536 * bs.getD (k + 2) 0 +
      16777216 * bs.getD (k + 3) 0) / 16777216 % 256 = bs.getD (k + 3) 0 := by omega
  rw [e0, e1, e2, e3]

theorem parseChunksMeta_spec (glb : List Nat) :
    ∀ fuel offset cs, offset ≤ glb.length →
      parseChunksMeta glb fuel offset = .ok cs →
      joinRaws cs = byteSlice glb offset (offset + rawLen cs) ∧
      offset + rawLen cs ≤ glb.length ∧
      glb.length < offset + rawLen cs + GLB_CHUNK_HEADER_LENGTH := by
  intro fuel
  induction fuel with
  | zero => intro offset cs _ h; exact absurd h (by simp [parseChunksMeta])
  | succ fuel ih =>
    intro offset cs hoff h
    rw [parseChunksMeta] at h
    by_cases hcond : offset + GLB_CHUNK_HEADER_LENGTH ≤ glb.length
    · rw [if_pos hcond] at h
      by_cases hend : offset + GLB_CHUNK_HEADER_LENGTH + readU32 glb offset > glb.length
      · rw [if_pos hend] at h
        exact absurd h (by simp)
      · rw [if_neg hend] at h
        rcases hrec : parseChunksMeta glb fuel
            (offset + GLB_CHUNK_HEADER_LENGTH + readU32 glb offset) with e | rest
        · rw [hrec] at h
          exact absurd h (by simp)
        · rw [hrec] at h
          injection h with h2
          rcases ih (offset + GLB_CHUNK_HEADER_LENGTH + readU32 glb offset) rest
            (by omega) hrec with ⟨hjoin, hle, hlt⟩
          subst h2
          have hrawlen : rawLen (⟨readU32 glb (offset + 4),
              byteSlice glb (offset + GLB_CHUNK_HEADER_LENGTH)
                (offset + GLB_CHUNK_HEADER_LENGTH + readU32 glb offset),
              byteSlice glb offset
                (offset + GLB_CHUNK_HEADER_LENGTH + readU32 glb offset)⟩ :: rest) =
              (GLB_CHUNK_HEADER_LENGTH + readU32 glb offset) + rawLen rest := by
            rw [rawLen, List.map_cons, List.sum_cons]
            rw [byteSlice_length glb offset _ (by omega) (by omega)]
            rw [← rawLen]
            congr 1
            omega
          refine ⟨?_, by rw [hrawlen]; omega, by rw [hrawlen]; omega⟩
          rw [joinRaws, List.map_cons, List.flatten_cons, ← joinRaws, hjoin, hrawlen]
          have harith : offset + (GLB_CHUNK_HEADER_LENGTH + readU32 glb offset + rawLen rest) =
              (offset + GLB_CHUNK_HEADER_LENGTH + readU32 glb offset) + rawLen rest := by
            omega
          rw [harith]
          exact byteSlice_append glb offset _ _ (by omega) (by omega)
    · rw [if_neg hcond] at h
      injection h with h2
      subst h2
      refine ⟨?_, by rw [rawLen]; simp; omega, by rw [rawLen]; simp; omega⟩
      rw [joinRaws, rawLen]
      simp [byteSlice]

theorem parseGlb_ok (glb : List Nat) (p : ParsedGlb) (h : parseGlb glb = .ok p) :
    GLB_HEADER_LENGTH + GLB_CHUNK_HEADER_LENGTH ≤ glb.length ∧
    readU32 glb 0 = GLB_MAGIC ∧ p.version = readU32 glb 4 ∧
    readU32 glb 8 = glb.length ∧
    parseChunksMeta glb (glb.length + 1) GLB_HEADER_LENGTH = .ok p.chunks := by
  rw [parseGlb] at h
  by_cases h1 : glb.length < 4
  · rw [if_pos h1] at h
    exact absurd h (by simp)
  rw [if_neg h1] at h
  by_cases h2 : readU32 glb 0 ≠ GLB_MAGIC
  · rw [if_pos h2] at h
    exact absurd h (by simp)
  rw [if_neg h2] at h
  by_cases h3 : glb.length < GLB_HEADER_LENGTH + GLB_CHUNK_HEADER_LENGTH
  · rw [if_pos h3] at h
    exact absurd h (by simp)
  rw [if_neg h3] at h
  by_cases h4 : readU32 glb 8 ≠ glb.length
  · rw [if_pos h4] at h
    by_cases h5 : readU32 glb 8 > glb.length
    · rw [if_pos h5] at h
      exact absurd h (by simp)
    · rw [if_neg h5] at h
      exact absurd h (by simp)
  rw [if_neg h4] at h
  rcases hrec : parseChunksMeta glb (glb.length + 1) GLB_HEADER_LENGTH with e | chunks
  · rw [hrec] at h
    exact absurd h (by simp)
  · rw [hrec] at h
    dsimp only at h
    by_cases h6 : chunks = []
    · rw [if_pos h6] at h
      exact absurd h (by simp)
    · rw [if_neg h6] at h
      injection h with h7
      subst h7
      exact ⟨by omega, by omega, rfl, by omega, rfl⟩

/-- C1 counterexample: a 21-byte buffer the Codec's parse accepts (header
valid, declared length 21 equals the buffer length, one chunk at bytes
12-19), yet rebuilding from the parse result drops the trailing byte the
chunk walk never consumed, so `build(parse(x)) ≠ x`. -/
theorem glb_roundtrip_cex :
    (parseGlb cexC1trailing).isOk = true ∧
    rebuildGlb cexC1trailing ≠ .ok cexC1trailing := by
  decide

/-- C1 (amended): for every well-formed byte buffer the Codec's parse
accepts whose parsed chunks exactly cover the buffer past the 12-byte
header, rebuilding — `buildGlb(parse(x).version, parse(x).chunks.raw)`,
with the total length recomputed as 12 plus the sum of the raw chunk
lengths — returns the input byte-identically.  The exact-coverage
hypothesis cannot be dropped: parse also accepts buffers with up to 7
trailing bytes after the last chunk, and rebuild drops them. -/
theorem glb_roundtrip (glb : List Nat) (p : ParsedGlb) (hwf : BytesWF glb)
    (h : parseGlb glb = .ok p)
    (hcover : GLB_HEADER_LENGTH + rawLen p.chunks = glb.length) :
    buildGlb p.version (p.chunks.map (fun c => c.raw)) = glb := by
  obtain ⟨hlen, hmagic, hver, hdecl, hrec⟩ := parseGlb_ok glb p h
  have h20 : (20 : Nat) ≤ glb.length := hlen
  obtain ⟨hjoin, hle, hlt⟩ := parseChunksMeta_spec glb (glb.length + 1)
    GLB_HEADER_LENGTH p.chunks (by omega) hrec
  rw [hcover] at hjoin
  rw [buildGlb]
  have hsum : ((p.chunks.map (fun c => c.raw)).map List.length).sum =
      rawLen p.chunks := by
    rw [rawLen, List.map_map]
    rfl
  have hflat : (p.chunks.map (fun c => c.raw)).flatten = joinRaws p.chunks := rfl
  rw [hsum, hflat, hcover, ← hmagic, hver, ← hdecl, hjoin]
  rw [writeU32_readU32 glb hwf 0 (by omega), writeU32_readU32 glb hwf 4 (by omega),
      writeU32_readU32 glb hwf 8 (by omega)]
  show byteSlice glb 0 4 ++ byteSlice glb 4 8 ++ byteSlice glb 8 12 ++
      byteSlice glb 12 glb.length = glb
  rw [byteSlice_append glb 0 4 8 (by omega) (by omega),
      byteSlice_append glb 0 8 12 (by omega) (by omega),
      byteSlice_append glb 0 12 glb.length (by omega) (by omega),
      byteSlice_zero]

/-- Witness for C1 on the minimal 20-byte GLB: the hypotheses hold and the
rebuild is byte-identical. -/
theorem glb_roundtrip_witness :
    BytesWF glbMinimal ∧ parseGlb glbMinimal = .ok glbMinimalParsed ∧
    GLB_HEADER_LENGTH + rawLen glbMinimalParsed.chunks = glbMinimal.length ∧
    buildGlb glbMinimalParsed.version
      (glbMinimalParsed.chunks.map (fun c => c.raw)) = glbMinimal :=
  ⟨by decide, by decide, by decide,
    glb_roundtrip glbMinimal glbMinimalParsed (by decide) (by decide) (by decide)⟩

theorem enumFrom_map_const {α β : Type} (f : α → β) (a : β) :
    ∀ (l : List α) (k t : Nat), t < k →
      (List.enumFrom k l).map (fun ci => if ci.1 = t then a else f ci.2) = l.map f := by
  intro l
  induction l with
  | nil => intro k t _; rfl
  | cons x xs ih =>
    intro k t ht
    rw [List.enumFrom_cons, List.map_cons, List.map_cons]
    rw [if_neg (by omega), ih (k + 1) t (by omega)]

theorem enumFrom_map_set {α β : Type} (f : α → β) (a : β) :
    ∀ (l : List α) (k j : Nat),
      (List.enumFrom k l).map (fun ci => if ci.1 = k + j then a else f ci.2) =
        (l.map f).set j a := by
  intro l
  induction l with
  | nil => intro k j; rfl
  | cons x xs ih =>
    intro k j
    rw [List.enumFrom_cons, List.map_cons, List.map_cons]
    cases j with
    | zero =>
      rw [if_pos (by omega), List.set_cons_zero]
      rw [enumFrom_map_const f a xs (k + 1) (k + 0) (by omega)]
    | succ j =>
      rw [if_neg (by omega), List.set_cons_succ]
      have harith : k + (j + 1) = (k + 1) + j := by omega
      rw [harith, ih (k + 1) j]

theorem enum_map_set {α β : Type} (f : α → β) (a : β) (l : List α) (j : Nat) :
    l.enum.map (fun ci => if ci.1 = j then a else f ci.2) = (l.map f).set j a := by
  have h := enumFrom_map_set f a l 0 j
  rw [Nat.zero_add] at h
  exact h

theorem enum_map_set_raw (a : List Nat) (l : List ParsedChunk) (j : Nat) :
    l.enum.map (fun ci => if ci.1 = j then a else ci.2.raw) =
      (l.map (fun c => c.raw)).set j a :=
  enum_map_set (fun c => c.raw) a l j

/-- C2: whenever `injectAssetExtrasIntoGlb` succeeds on a GLB buffer and a
plain-object extras payload, the output is rebuilt from the parsed chunk
list with a freshly built JSON chunk substituted at the original JSON
chunk's position (the first chunk whose type is `GLB_JSON_CHUNK`) and
every other chunk's raw header-plus-payload bytes passed through unchanged
— `List.set` alters only that one position.  The embedding is pure, so the
input buffer is shared, never written: in the source every output byte
goes into a newly allocated buffer and the input is only read. -/
theorem injectExtras_frame (glb : List Nat) (extras : Json) (out : List Nat)
    (h : injectAssetExtrasIntoGlb glb extras = .ok out) :
    ∃ parsed jIdx nextText,
      parseGlb glb = .ok parsed ∧
      parsed.chunks.findIdx? (fun c => c.ctype = GLB_JSON_CHUNK) = some jIdx ∧
      out = buildGlb parsed.version
        ((parsed.chunks.map (fun c => c.raw)).set jIdx (buildJsonChunk nextText)) := by
  rw [injectAssetExtrasIntoGlb] at h
  cases hpe : isPlainObject extras with
  | false =>
    rw [hpe] at h
    exact absurd h (by simp)
  | true =>
    rw [hpe] at h
    rw [if_neg (by simp)] at h
    rcases hp : parseGlb glb with e | parsed
    · rw [hp] at h
      exact absurd h (by simp)
    · rw [hp] at h
      dsimp only at h
      rcases hfind : parsed.chunks.findIdx? (fun c => c.ctype = GLB_JSON_CHUNK) with _ | jIdx
      · rw [hfind] at h
        exact absurd h (by simp)
      · rw [hfind] at h
        dsimp only at h
        split at h
        · exact absurd h (by simp)
        · split at h
          · exact absurd h (by simp)
          · injection h with h2
            exact ⟨parsed, jIdx, _, rfl, hfind, by rw [← h2, enum_map_set_raw]⟩

set_option maxRecDepth 200000 in
/-- Witness for C2 on the concrete asset-only GLB with the plain-object
extras payload `\x7b"a":1\x7d`. -/
theorem injectExtras_frame_witness :
    ∃ parsed jIdx nextText,
      parseGlb glbAssetOnly = .ok parsed ∧
      parsed.chunks.findIdx? (fun c => c.ctype = GLB_JSON_CHUNK) = some jIdx ∧
      injectExampleOut = buildGlb parsed.version
        ((parsed.chunks.map (fun c => c.raw)).set jIdx (buildJsonChunk nextText)) :=
  injectExtras_frame glbAssetOnly extrasExample injectExampleOut (by decide)

theorem takeDigits_eq (s : List Char) : (takeDigits s).1 ++ (takeDigits s).2 = s := by
  rw [takeDigits]
  exact List.takeWhile_append_dropWhile isDigitChar s

theorem takeDigits_all (s : List Char) : (takeDigits s).1.all isDigitChar = true := by
  rw [takeDigits]
  induction s with
  | nil => rfl
  | cons c t ih =>
    by_cases hc : isDigitChar c
    · rw [List.takeWhile_cons, if_pos hc, List.all_cons, hc]
      exact ih
    · rw [List.takeWhile_cons, if_neg hc]
      rfl

theorem takeDigits_head (s : List Char) (c : Char)
    (h : (takeDigits s).2.head? = some c) : isDigitChar c = false := by
  rw [takeDigits] at h
  induction s with
  | nil => exact absurd h (by simp)
  | cons c2 t ih =>
    by_cases hc : isDigitChar c2
    · rw [List.dropWhile_cons, if_pos hc] at h
      exact ih h
    · rw [List.dropWhile_cons, if_neg hc] at h
      rw [List.head?_cons] at h
      injection h with h2
      subst h2
      cases hd : isDigitChar c2
      · rfl
      · exact absurd hd hc

theorem takeDigits_exact (g r : List Char) (hg : g.all isDigitChar = true)
    (hr : ∀ c, r.head? = some c → isDigitChar c = false) :
    takeDigits (g ++ r) = (g, r) := by
  rw [takeDigits]
  induction g with
  | nil =>
    rw [List.nil_append]
    cases r with
    | nil => rfl
    | cons c t =>
      have hc := hr c (by rw [List.head?_cons])
      rw [List.takeWhile_cons, List.dropWhile_cons, hc]
      rfl
  | cons c g2 ih =>
    rw [List.all_cons, Bool.and_eq_true] at hg
    rw [List.cons_append, List.takeWhile_cons, List.dropWhile_cons, hg.1]
    have := ih hg.2
    rw [Prod.mk.injEq] at this ⊢
    simp only [if_true]
    exact ⟨by rw [this.1], this.2⟩

theorem splitColon_cons_ne (c : Char) (t cur : List Char) (h : ¬ c = ':') :
    splitColon (c :: t) cur = splitColon t (cur ++ [c]) := by
  rw [splitColon.eq_def]
  split
  · rename_i heq
    exact absurd heq (by simp)
  · rename_i t2 heq
    injection heq with h1 _
    exact absurd h1 h
  · rename_i c2 t2 hne heq
    injection heq with h1 h2
    subst h1
    subst h2
    rfl

theorem splitColon_ne_nil : ∀ (t cur : List Char), splitColon t cur ≠ [] := by
  intro t
  induction t with
  | nil => intro cur; exact List.cons_ne_nil _ _
  | cons c t ih =>
    intro cur
    by_cases hc : c = ':'
    · subst hc
      exact List.cons_ne_nil _ _
    · rw [splitColon_cons_ne c t cur hc]
      exact ih _

theorem joinColon_cons (g : List Char) (l : List (List Char)) (hl : l ≠ []) :
    joinColon (g :: l) = g ++ ':' :: joinColon l := by
  cases l with
  | nil => exact absurd rfl hl
  | cons g2 rest => rfl

theorem joinColon_splitColon : ∀ (t cur : List Char),
    joinColon (splitColon t cur) = cur ++ t := by
  intro t
  induction t with
  | nil =>
    intro cur
    rw [List.append_nil]
    rfl
  | cons c t ih =>
    intro cur
    by_cases hc : c = ':'
    · subst hc
      show joinColon (cur :: splitColon t []) = cur ++ ':' :: t
      rw [joinColon_cons cur _ (splitColon_ne_nil t []), ih []]
      rfl
    · rw [splitColon_cons_ne c t cur hc, ih (cur ++ [c])]
      simp

theorem splitColon_append_nocolon : ∀ (a : List Char), (∀ c ∈ a, ¬ c = ':') →
    ∀ (b cur : List Char), splitColon (a ++ b) cur = splitColon b (cur ++ a) := by
  intro a
  induction a with
  | nil =>
    intro _ b cur
    rw [List.nil_append, List.append_nil]
  | cons c a ih =>
    intro ha b cur
    rw [List.cons_append, splitColon_cons_ne c (a ++ b) cur (ha c (List.mem_cons_self c a))]
    rw [ih (fun x hx => ha x (List.mem_cons_of_mem c hx)) b (cur ++ [c])]
    simp

theorem splitColon_joinColon : ∀ (rest : List (List Char)) (g cur : List Char),
    (∀ c ∈ g, ¬ c = ':') → (∀ h ∈ rest, ∀ c ∈ h, ¬ c = ':') →
    splitColon (joinColon (g :: rest)) cur = (cur ++ g) :: rest := by
  intro rest
  induction rest with
  | nil =>
    intro g cur hg _
    show splitColon g cur = [cur ++ g]
    have := splitColon_append_nocolon g hg [] cur
    rw [List.append_nil] at this
    exact this
  | cons g2 rest ih =>
    intro g cur hg hrest
    rw [joinColon_cons g _ (List.cons_ne_nil _ _)]
    rw [splitColon_append_nocolon g hg _ cur]
    show (cur ++ g) :: splitColon (joinColon (g2 :: rest)) [] = (cur ++ g) :: g2 :: rest
    rw [ih g2 [] (hrest g2 (List.mem_cons_self g2 rest))
      (fun x hx => hrest x (List.mem_cons_of_mem g2 hx))]
    rw [List.nil_append]

theorem digits_nocolon (g : List Char) (hg : g.all isDigitChar = true) :
    ∀ c ∈ g, ¬ c = ':' := by
  intro c hc heq
  subst heq
  have := List.all_eq_true.mp hg _ hc
  exact absurd this (by decide)

theorem joinColon_snoc : ∀ (l : List (List Char)), l ≠ [] → ∀ (d : List Char),
    joinColon (l ++ [d]) = joinColon l ++ ':' :: d := by
  intro l
  induction l with
  | nil => intro h; exact absurd rfl h
  | cons g rest ih =>
    intro _ d
    cases rest with
    | nil => rfl
    | cons g2 rest2 =>
      show g ++ ':' :: joinColon ((g2 :: rest2) ++ [d]) =
        (g ++ ':' :: joinColon (g2 :: rest2)) ++ ':' :: d
      rw [ih (List.cons_ne_nil _ _) d]
      simp

theorem isOcafShape_iff (s : List Char) : isOcafShape s = true ↔
    2 ≤ (splitColon s []).length ∧
      ∀ g ∈ splitColon s [], ¬ g = [] ∧ g.all isDigitChar = true := by
  rw [isOcafShape]
  simp [List.all_eq_true, List.isEmpty_iff]

theorem digit_is_word (c : Char) (h : isDigitChar c = true) : isWordCharJs c = true := by
  rw [isWordCharJs]
  exact decide_eq_true (Or.inr (Or.inr (Or.inl h)))

theorem boundary_head_not_digit (r : List Char) (h : boundaryEnd r = true) :
    ∀ c, r.head? = some c → isDigitChar c = false := by
  intro c hc
  cases r with
  | nil => exact absurd hc (by simp)
  | cons c2 t =>
    rw [List.head?_cons] at hc
    injection hc with hc2
    subst hc2
    rw [boundaryEnd] at h
    have hw := of_decide_eq_true h
    cases hd : isDigitChar c2
    · rfl
    · exact absurd (digit_is_word c2 hd) hw

theorem isOcafShape_join (g1 : List Char) (gs : List (List Char))
    (h1 : ¬ g1 = [] ∧ g1.all isDigitChar = true) (hgs : gs ≠ [])
    (hall : ∀ g ∈ gs, ¬ g = [] ∧ g.all isDigitChar = true) :
    isOcafShape (joinColon (g1 :: gs)) = true := by
  rw [isOcafShape_iff]
  rw [splitColon_joinColon gs g1 [] (digits_nocolon g1 h1.2)
    (fun g hg => digits_nocolon g (hall g hg).2)]
  constructor
  · cases gs with
    | nil => exact absurd rfl hgs
    | cons g2 rest => simp
  · intro g hg
    rcases List.mem_cons.mp hg with hg1 | hg2
    · subst hg1
      exact h1
    · exact hall g hg2

theorem isOcafShape_decomp (m : List Char) (h : isOcafShape m = true) :
    ∃ g1 g2 rest, m = g1 ++ ':' :: joinColon (g2 :: rest) ∧
      ¬ g1 = [] ∧ g1.all isDigitChar = true ∧ ¬ g2 = [] ∧ g2.all isDigitChar = true ∧
      (∀ g ∈ rest, ¬ g = [] ∧ g.all isDigitChar = true) := by
  rcases (isOcafShape_iff m).mp h with ⟨hlen, hall⟩
  rcases hsp : splitColon m [] with _ | ⟨g1, gs'⟩
  · exact absurd hsp (splitColon_ne_nil m [])
  rcases gs' with _ | ⟨g2, rest⟩
  · rw [hsp] at hlen
    simp at hlen
  · have hjoin := joinColon_splitColon m []
    rw [hsp, List.nil_append] at hjoin
    rw [hsp] at hall
    refine ⟨g1, g2, rest, by rw [← hjoin]; rfl,
      (hall g1 (by simp)).1, (hall g1 (by simp)).2,
      (hall g2 (by simp)).1, (hall g2 (by simp)).2,
      fun g hg => hall g (by simp [hg])⟩

theorem ocafGroupsGo_colon (fuel : Nat) (acc t : List Char)
    (best : Option (List Char × List Char)) :
    ocafGroupsGo (fuel + 1) acc (':' :: t) best =
      (if (takeDigits t).1.isEmpty then best
       else ocafGroupsGo fuel (acc ++ ':' :: (takeDigits t).1) (takeDigits t).2
         (if boundaryEnd (takeDigits t).2 then
            some (acc ++ ':' :: (takeDigits t).1, (takeDigits t).2) else best)) := rfl

theorem ocafGroupsGo_other (fuel : Nat) (acc : List Char) (c : Char) (t : List Char)
    (best : Option (List Char × List Char)) (hc : ¬ c = ':') :
    ocafGroupsGo (fuel + 1) acc (c :: t) best = best := by
  rw [ocafGroupsGo.eq_def]
  split
  · rfl
  · split
    · rename_i heq
      injection heq with h1 _
      exact absurd h1 hc
    · rfl

theorem ocafGroupsGo_sound : ∀ (fuel : Nat) (s acc : List Char)
    (best : Option (List Char × List Char)) (m rest : List Char),
    (∀ mb rb, best = some (mb, rb) → acc ++ s = mb ++ rb ∧ isOcafShape mb = true ∧
      boundaryEnd rb = true) →
    (∃ g1 gs, acc = joinColon (g1 :: gs) ∧ ¬ g1 = [] ∧ g1.all isDigitChar = true ∧
      (∀ g ∈ gs, ¬ g = [] ∧ g.all isDigitChar = true)) →
    ocafGroupsGo fuel acc s best = some (m, rest) →
    acc ++ s = m ++ rest ∧ isOcafShape m = true ∧ boundaryEnd rest = true := by
  intro fuel
  induction fuel with
  | zero =>
    intro s acc best m rest hbest _ h
    exact hbest m rest h
  | succ fuel ih =>
    intro s acc best m rest hbest hacc h
    cases s with
    | nil => exact hbest m rest h
    | cons c t =>
      by_cases hc : c = ':'
      · subst hc
        rw [ocafGroupsGo_colon] at h
        rcases hdt : takeDigits t with ⟨ds, r⟩
        rw [hdt] at h
        dsimp only at h
        by_cases hds : ds.isEmpty
        · rw [if_pos hds] at h
          exact hbest m rest h
        · rw [if_neg hds] at h
          rcases hacc with ⟨g1, gs, haccj, hg1ne, hg1d, hgs⟩
          have hdsne : ¬ ds = [] := fun he => hds (by rw [he]; rfl)
          have hdall : ds.all isDigitChar = true := by
            have h2 := takeDigits_all t
            rw [hdt] at h2
            exact h2
          have hteq : ds ++ r = t := by
            have h2 := takeDigits_eq t
            rw [hdt] at h2
            exact h2
          have hacc2j : acc ++ ':' :: ds = joinColon (g1 :: (gs ++ [ds])) := by
            rw [haccj, ← joinColon_snoc (g1 :: gs) (List.cons_ne_nil _ _) ds]
            rfl
          have hall2 : ∀ g ∈ gs ++ [ds], ¬ g = [] ∧ g.all isDigitChar = true := by
            intro g hg
            rcases List.mem_append.mp hg with h1 | h2
            · exact hgs g h1
            · rw [List.mem_singleton.mp h2]
              exact ⟨hdsne, hdall⟩
          have hshape2 : isOcafShape (acc ++ ':' :: ds) = true := by
            rw [hacc2j]
            exact isOcafShape_join g1 (gs ++ [ds]) ⟨hg1ne, hg1d⟩ (by simp) hall2
          have hbest2 : ∀ mb rb,
              (if boundaryEnd r then some (acc ++ ':' :: ds, r) else best) =
                some (mb, rb) →
              (acc ++ ':' :: ds) ++ r = mb ++ rb ∧ isOcafShape mb = true ∧
                boundaryEnd rb = true := by
            intro mb rb hb
            by_cases hbr : boundaryEnd r
            · rw [if_pos hbr] at hb
              injection hb with hb2
              injection hb2 with hbl hbr2
              subst hbl
              subst hbr2
              exact ⟨rfl, hshape2, hbr⟩
            · rw [if_neg hbr] at hb
              have hb3 := hbest mb rb hb
              refine ⟨?_, hb3.2⟩
              rw [← hb3.1, ← hteq]
              simp
          have hrec := ih r (acc ++ ':' :: ds) _ m rest hbest2
            ⟨g1, gs ++ [ds], hacc2j, hg1ne, hg1d, hall2⟩ h
          refine ⟨?_, hrec.2⟩
          rw [← hrec.1, ← hteq]
          simp
      · rw [ocafGroupsGo_other fuel acc c t best hc] at h
        exact hbest m rest h

theorem ocafMatchAt_sound (prev : Option Char) (s m rest : List Char)
    (h : ocafMatchAt prev s = some (m, rest)) :
    isWordOpt prev = false ∧ s = m ++ rest ∧ isOcafShape m = true ∧
      boundaryEnd rest = true ∧ ¬ m = [] := by
  rw [ocafMatchAt] at h
  by_cases hw : isWordOpt prev
  · rw [if_pos hw] at h
    exact absurd h (by simp)
  · rw [if_neg hw] at h
    rcases hdt : takeDigits s with ⟨d1, r1⟩
    rw [hdt] at h
    dsimp only at h
    by_cases hd1 : d1.isEmpty
    · rw [if_pos hd1] at h
      exact absurd h (by simp)
    · rw [if_neg hd1] at h
      have hd1ne : ¬ d1 = [] := fun he => hd1 (by rw [he]; rfl)
      have hdall : d1.all isDigitChar = true := by
        have h2 := takeDigits_all s
        rw [hdt] at h2
        exact h2
      have hseq : d1 ++ r1 = s := by
        have h2 := takeDigits_eq s
        rw [hdt] at h2
        exact h2
      have hsound := ocafGroupsGo_sound (r1.length + 1) r1 d1 none m rest
        (fun mb rb hb => absurd hb (by simp))
        ⟨d1, [], rfl, hd1ne, hdall, fun g hg => absurd hg (by simp)⟩ h
      have hmne : ¬ m = [] := by
        intro he
        rw [he] at hsound
        exact absurd hsound.2.1 (by decide)
      have hw' : isWordOpt prev = false := by
        cases hwv : isWordOpt prev
        · rfl
        · exact absurd hwv hw
      refine ⟨hw', ?_, hsound.2.1, hsound.2.2, hmne⟩
      rw [← hseq, hsound.1]

theorem ocafScan_cons (fuel : Nat) (prev : Option Char) (c : Char) (t : List Char) :
    ocafScan (fuel + 1) prev (c :: t) =
      (match ocafMatchAt prev (c :: t) with
       | some (m, rest) => m :: ocafScan fuel m.getLast? rest
       | none => ocafScan fuel (some c) t) := rfl

theorem getLast?_append_right (a b : List Char) (hb : ¬ b = []) :
    (a ++ b).getLast? = b.getLast? := by
  induction a with
  | nil => rfl
  | cons c a ih =>
    rw [List.cons_append]
    cases hab : a ++ b with
    | nil =>
      rcases List.append_eq_nil.mp hab with ⟨_, h2⟩
      exact absurd h2 hb
    | cons x xs =>
      rw [List.getLast?_cons_cons, ← hab, ih]

theorem ocafScan_sound : ∀ (fuel : Nat) (s done name : List Char),
    name = done ++ s →
    ∀ m ∈ ocafScan fuel done.getLast? s,
      isOcafShape m = true ∧ BoundedOccurrence name m := by
  intro fuel
  induction fuel with
  | zero =>
    intro s done name _ m hm
    exact absurd hm (List.not_mem_nil m)
  | succ fuel ih =>
    intro s done name hname m hm
    cases s with
    | nil => exact absurd hm (List.not_mem_nil m)
    | cons c t =>
      rw [ocafScan_cons] at hm
      rcases hma : ocafMatchAt done.getLast? (c :: t) with _ | ⟨mm, rest⟩
      · rw [hma] at hm
        dsimp only at hm
        have hl : (done ++ [c]).getLast? = some c := List.getLast?_concat _
        exact ih t (done ++ [c]) name (by rw [hname]; simp) m (by rw [hl]; exact hm)
      · rw [hma] at hm
        dsimp only at hm
        rcases ocafMatchAt_sound _ _ _ _ hma with ⟨hw, hseq, hshape, hbnd, hne⟩
        rcases List.mem_cons.mp hm with hm1 | hm2
        · refine ⟨by rw [hm1]; exact hshape, done, rest, ?_, hw, hbnd⟩
          rw [hname, hseq, hm1]
          simp
        · exact ih rest (done ++ mm) name (by rw [hname, hseq]; simp) m
            (by rw [getLast?_append_right done mm hne]; exact hm2)

theorem ocafGroupsGo_some : ∀ (fuel : Nat) (s acc : List Char)
    (b : List Char × List Char), ∃ out, ocafGroupsGo fuel acc s (some b) = some out := by
  intro fuel
  induction fuel with
  | zero => intro s acc b; exact ⟨b, rfl⟩
  | succ fuel ih =>
    intro s acc b
    cases s with
    | nil => exact ⟨b, rfl⟩
    | cons c t =>
      by_cases hc : c = ':'
      · subst hc
        rw [ocafGroupsGo_colon]
        rcases hdt : takeDigits t with ⟨ds, r⟩
        dsimp only
        by_cases hds : ds.isEmpty
        · rw [if_pos hds]
          exact ⟨b, rfl⟩
        · rw [if_neg hds]
          by_cases hbr : boundaryEnd r
          · rw [if_pos hbr]
            exact ih r (acc ++ ':' :: ds) (acc ++ ':' :: ds, r)
          · rw [if_neg hbr]
            exact ih r (acc ++ ':' :: ds) b
      · rw [ocafGroupsGo_other fuel acc c t _ hc]
        exact ⟨b, rfl⟩

theorem ocafGroupsGo_start (fuel : Nat) (acc g r : List Char) (hg : ¬ g = [])
    (hdt : takeDigits (g ++ r) = (g, r)) (hbr : boundaryEnd r = true) :
    ∃ out, ocafGroupsGo (fuel + 1) acc (':' :: (g ++ r)) none = some out := by
  rw [ocafGroupsGo_colon, hdt]
  dsimp only
  rw [if_neg (fun he => hg (List.isEmpty_iff.mp he))]
  rw [if_pos hbr]
  exact ocafGroupsGo_some fuel r (acc ++ ':' :: g) (acc ++ ':' :: g, r)

theorem boundaryEnd_colon (xs : List Char) : boundaryEnd (':' :: xs) = true := rfl

theorem head_colon_not_digit : ∀ (xs : List Char) (c : Char),
    (':' :: xs).head? = some c → isDigitChar c = false := by
  intro xs c hc
  rw [List.head?_cons] at hc
  injection hc with hc2
  subst hc2
  decide

theorem ocafMatchAt_complete (prev : Option Char) (m post : List Char)
    (hw : isWordOpt prev = false) (hshape : isOcafShape m = true)
    (hbnd : boundaryEnd post = true) :
    ∃ out, ocafMatchAt prev (m ++ post) = some out := by
  rcases isOcafShape_decomp m hshape with
    ⟨g1, g2, rest, hm, hg1ne, hg1d, hg2ne, hg2d, hrest⟩
  rw [ocafMatchAt, hw]
  rw [if_neg (by simp)]
  have hre : m ++ post = g1 ++ ':' :: (joinColon (g2 :: rest) ++ post) := by
    rw [hm]
    simp
  rw [hre]
  rw [takeDigits_exact g1 (':' :: (joinColon (g2 :: rest) ++ post)) hg1d
    (head_colon_not_digit _)]
  dsimp only
  rw [if_neg (fun he => hg1ne (List.isEmpty_iff.mp he))]
  cases rest with
  | nil =>
    have hjc : joinColon [g2] = g2 := rfl
    rw [hjc]
    exact ocafGroupsGo_start _ g1 g2 post hg2ne
      (takeDigits_exact g2 post hg2d (boundary_head_not_digit post hbnd)) hbnd
  | cons g3 rest2 =>
    have hjc : joinColon (g2 :: g3 :: rest2) ++ post =
        g2 ++ (':' :: (joinColon (g3 :: rest2) ++ post)) := by
      show (g2 ++ ':' :: joinColon (g3 :: rest2)) ++ post = _
      simp
    rw [hjc]
    exact ocafGroupsGo_start _ g1 g2 (':' :: (joinColon (g3 :: rest2) ++ post)) hg2ne
      (takeDigits_exact g2 _ hg2d (head_colon_not_digit _)) (boundaryEnd_colon _)

theorem ocafScan_complete : ∀ (fuel : Nat) (s done : List Char),
    s.length < fuel →
    ocafScan fuel done.getLast? s = [] →
    ∀ pre m post, s = pre ++ m ++ post → isOcafShape m = true →
      boundaryEnd post = true → isWordOpt (done ++ pre).getLast? = false → False := by
  intro fuel
  induction fuel with
  | zero =>
    intro s done hf
    omega
  | succ fuel ih =>
    intro s done hf hscan pre m post hs hshape hbnd hword
    cases s with
    | nil =>
      have hm : m = [] := by
        have h2 : pre ++ m ++ post = [] := hs.symm
        rcases List.append_eq_nil.mp h2 with ⟨h3, _⟩
        exact (List.append_eq_nil.mp h3).2
      rw [hm] at hshape
      exact absurd hshape (by decide)
    | cons c t =>
      rw [ocafScan_cons] at hscan
      rcases hma : ocafMatchAt done.getLast? (c :: t) with _ | ⟨mm, rest⟩
      · rw [hma] at hscan
        dsimp only at hscan
        cases pre with
        | nil =>
          have hw0 : isWordOpt done.getLast? = false := by
            have h2 := hword
            rw [List.append_nil] at h2
            exact h2
          rcases ocafMatchAt_complete done.getLast? m post hw0 hshape hbnd with ⟨out, hout⟩
          have h3 := hma
          rw [List.nil_append] at hs
          rw [hs] at h3
          rw [hout] at h3
          exact Option.noConfusion h3
        | cons c2 pre2 =>
          have hct : c = c2 ∧ t = pre2 ++ m ++ post := by
            rw [List.cons_append, List.cons_append] at hs
            exact ⟨by injection hs, by injection hs⟩
          rcases hct with ⟨hc2, ht⟩
          subst hc2
          have hlast : (done ++ [c]).getLast? = some c := List.getLast?_concat _
          apply ih t (done ++ [c]) (by simp at hf; omega) (by rw [hlast]; exact hscan)
            pre2 m post ht hshape hbnd
          have hassoc : (done ++ [c]) ++ pre2 = done ++ (c :: pre2) := by simp
          rw [hassoc]
          exact hword
      · rw [hma] at hscan
        dsimp only at hscan
        exact absurd hscan (List.cons_ne_nil _ _)

theorem mem_of_getLast? {α : Type} : ∀ (l : List α) (a : α), l.getLast? = some a → a ∈ l := by
  intro l
  induction l with
  | nil =>
    intro a h
    exact absurd h (by simp)
  | cons x t ih =>
    intro a h
    cases t with
    | nil =>
      injection h with h2
      exact h2 ▸ List.mem_cons_self x []
    | cons y t2 =>
      rw [List.getLast?_cons_cons] at h
      exact List.mem_cons_of_mem x (ih a h)

theorem getLast?_some_of_ne_nil {α : Type} : ∀ (l : List α), l ≠ [] →
    ∃ a, l.getLast? = some a := by
  intro l
  induction l with
  | nil =>
    intro h
    exact absurd rfl h
  | cons x t ih =>
    intro _
    cases t with
    | nil => exact ⟨x, rfl⟩
    | cons y t2 =>
      rcases ih (List.cons_ne_nil _ _) with ⟨a, ha⟩
      exact ⟨a, by rw [List.getLast?_cons_cons]; exact ha⟩

/-- C8 counterexample: on `"a0:1"` the source's boundary-anchored regex
finds nothing (the `0` follows the word character `a`, so no `\b` precedes
it) and `extractOcafEntryFromName` returns `null`, while the claim's
boundary-free reading `\d+(:\d+)+` still finds `"0:1"`.  The claim's
"found anywhere in the name" is therefore wrong. -/
theorem extractOcafEntry_boundary_cex :
    extractOcafEntryFromName "a0:1" = none ∧
    specLastMatchNoBoundary "a0:1" = some "0:1" := by
  constructor
  · decide
  · decide

/-- C8 (amended): `extractOcafEntryFromName` returns the last match of the
word-boundary-anchored regex `/\b\d+(?::\d+)+\b/g`, not of the bare
`\d+(:\d+)+`: every returned string has the colon-separated digit-group
shape and occurs in the name delimited by word boundaries on both sides,
and `null` is returned exactly when no word-boundary-delimited occurrence
of that shape exists — occurrences embedded in word characters (e.g. in
`"a0:1"`) are skipped.  The claim's two concrete examples hold. -/
theorem extractOcafEntry_amended (name : String) :
    (∀ s, extractOcafEntryFromName name = some s →
      isOcafShape s.data = true ∧ BoundedOccurrence name.data s.data) ∧
    (extractOcafEntryFromName name = none →
      ∀ m, isOcafShape m = true → ¬ BoundedOccurrence name.data m) ∧
    extractOcafEntryFromName "Gear Box [0:1]" = some "0:1" ∧
    extractOcafEntryFromName "No entry" = none := by
  refine ⟨?_, ?_, by decide, by decide⟩
  · intro s hs
    rw [extractOcafEntryFromName] at hs
    rcases hml : (ocafMatches name.data).getLast? with _ | md
    · rw [hml] at hs
      exact absurd hs (by simp)
    · rw [hml] at hs
      rw [Option.map_some'] at hs
      injection hs with hs2
      subst hs2
      exact ocafScan_sound (name.data.length + 1) name.data [] name.data rfl md
        (mem_of_getLast? _ md hml)
  · intro hnone m hshape hocc
    rw [extractOcafEntryFromName] at hnone
    have hml : (ocafMatches name.data).getLast? = none := by
      rcases h2 : (ocafMatches name.data).getLast? with _ | md
      · rfl
      · rw [h2, Option.map_some'] at hnone
        exact Option.noConfusion hnone
    have hnil : ocafMatches name.data = [] := by
      rcases h3 : ocafMatches name.data with _ | ⟨x, xs⟩
      · rfl
      · rcases getLast?_some_of_ne_nil (x :: xs) (List.cons_ne_nil _ _) with ⟨a, ha⟩
        rw [h3, ha] at hml
        exact Option.noConfusion hml
    rcases hocc with ⟨pre, post, heq, hpw, hbnd⟩
    exact ocafScan_complete (name.data.length + 1) name.data [] (by omega) hnil
      pre m post heq hshape hbnd hpw

/-- Witness for C8 (amended) on the claim's own example: the returned
`"0:1"` has the OCAF shape and occurs word-boundary-delimited in
`"Gear Box [0:1]"`. -/
theorem extractOcafEntry_amended_witness :
    isOcafShape ("0:1" : String).data = true ∧
    BoundedOccurrence ("Gear Box [0:1]" : String).data ("0:1" : String).data :=
  (extractOcafEntry_amended "Gear Box [0:1]").1 "0:1" (by decide)
